import Mathlib

/-!
Verification development for the checkpointed batch-scanning consistency
engine `src/scripts/document_items_repo_itemyear_mismatch.ts`.

The TypeScript program is shallowly embedded as follows.

* JavaScript `Set<string>` objects are insertion-ordered duplicate-free
  `List String` values (`ssetAdd` is `Set.add`, `ssetOfList` is `new Set(list)`,
  `List.length` is `Set.size`, the list itself is `Array.from(set)`).
* JavaScript `Map` objects are insertion-ordered association lists
  (`statsSet` is `Map.set`, `statsGet` is `Map.get`); the two reference maps
  `documentRepoMap` / `repoBodyMap` are taken as fixed lookup functions
  `String → Option String` (`Option.getD ""` models `map.get(x) || ''`).
* A falsy-string conversion `row.f ? String(row.f) : d` is `strOr`; absent
  Mongo fields are `Option.none`, and document `_id` values are `String`
  (Mongo guarantees `_id` is present).
* The MongoDB cursor over `DocumentItems` (filtered, sorted ascending by
  `_id`) is `documentItemQueryRows`: a filter over a snapshot list followed by
  a sort on the key.  String keys are compared lexicographically by
  code point (`strLt`), the order BSON uses for string keys.
* The `for await` scan loop with its batch accumulator, checkpoint writes
  and `--max-batches` cancellation is the recursion `scanRows`; a whole run
  (scan, final drain `processBatch`, final checkpoint save) is `runScan`.
  Checkpoints written by `saveCheckpoint` are recorded in the `saved` field;
  the batches handed to `processBatch` are recorded in the `batches` field.
-/

/-- `v ? String(v) : d` for a possibly-absent string field: the empty string
is falsy in JavaScript, so both `none` and `some ""` fall back to `d`. -/
def strOr (v : Option String) (d : String) : String :=
  match v with
  | some s => if s = "" then d else s
  | none => d

/-- JavaScript `Set.add`: append the element unless already present
(insertion order is preserved, duplicates are ignored). -/
def ssetAdd (s : List String) (x : String) : List String :=
  if x ∈ s then s else s ++ [x]

/-- JavaScript `new Set(list)`: dedup keeping first occurrences. -/
def ssetOfList (l : List String) : List String :=
  l.foldl ssetAdd []

/-- `String.prototype.trim()` restricted to the common whitespace characters;
the script only uses it to test whether the checkpoint file is blank. -/
def jsWhitespace (c : Char) : Bool :=
  c = ' ' || c = '\n' || c = '\t' || c = '\r'

/-- JavaScript `raw.trim()` (as a character list operation). -/
def jsTrim (s : String) : String :=
  ⟨((s.data.dropWhile jsWhitespace).reverse.dropWhile jsWhitespace).reverse⟩

/-- Lexicographic (code-point) comparison of character lists: the order in
which BSON compares string `_id` keys and `$gt` bounds. -/
def charListLt : List Char → List Char → Bool
  | [], [] => false
  | [], _ :: _ => true
  | _ :: _, [] => false
  | a :: as, b :: bs =>
    if a.toNat < b.toNat then true
    else if b.toNat < a.toNat then false
    else charListLt as bs

/-- Strict string comparison used for the `_id` cursor bound and sort. -/
def strLt (a b : String) : Bool :=
  charListLt a.data b.data

/-- Non-strict key comparison (the sort order of the `_id` index). -/
def strLe (a b : String) : Bool :=
  !(strLt b a)

/-- Per-reason aggregate: `{ count, itemIds }` (the `ReasonStats` record,
with the `Set` as an insertion-ordered duplicate-free list). -/
structure ReasonStat where
  count : Nat
  itemIds : List String
deriving DecidableEq

/-- JavaScript `Map.get` on the reason-stats map. -/
def statsGet (m : List (String × ReasonStat)) (k : String) : Option ReasonStat :=
  (m.find? (fun e => e.1 == k)).map (fun e => e.2)

/-- JavaScript `Map.set` on the reason-stats map: an existing key keeps its
position, a new key is appended. -/
def statsSet (m : List (String × ReasonStat)) (k : String) (v : ReasonStat) :
    List (String × ReasonStat) :=
  match m with
  | [] => [(k, v)]
  | e :: rest => if e.1 = k then (k, v) :: rest else e :: statsSet rest k v

/-- A row of the `SampleRow` evidence table. -/
structure SampleRow where
  documentItemId : String
  itemId : String
  documentId : String
  documentRepoId : String
  repoBodyOfKnowledgeId : String
  itemYearBodies : List String
  mismatchReason : String
deriving DecidableEq

/-- A buffered primary row (`DocumentItemRow`), already stringified. -/
structure DocumentItemRow where
  documentItemId : String
  itemId : String
  documentId : String
deriving DecidableEq

/-- A raw document of the primary collection `DocumentItems` as delivered by
the cursor projection `{ _id, itemId, documentId, addedOn }`.  `_id` is always
present; the other fields may be absent.  `addedOn` is an epoch timestamp. -/
structure RawDocumentItem where
  id : String
  itemId : Option String
  documentId : Option String
  addedOn : Option Int
deriving DecidableEq

/-- A raw document of the tertiary collection `ItemYearDimensionValues`
under the projection `{ itemId, bodyOfKnowledgeId }`. -/
structure ItemYearRow where
  itemId : Option String
  bodyOfKnowledgeId : Option String
deriving DecidableEq

/-- The run-scoped inputs fixed for one run: the two preloaded reference maps
(lookup views of `documentRepoMap` and `repoBodyMap`) and the snapshot of the
tertiary collection queried by `processBatch`. -/
structure Env where
  documentRepoMap : String → Option String
  repoBodyMap : String → Option String
  itemYears : List ItemYearRow

/-- Mutable aggregation state: `documentItemCount`, `allItemIds`,
`reasonStats` and the capped `samples` buffer. -/
structure AggState where
  documentItemCount : Nat
  allItemIds : List String
  reasonStats : List (String × ReasonStat)
  samples : List SampleRow
deriving DecidableEq

/-- The aggregation state at the start of a fresh (checkpoint-less) run. -/
def emptyAgg : AggState :=
  { documentItemCount := 0, allItemIds := [], reasonStats := [], samples := [] }

/-- The serialized `Checkpoint` record (sets already turned into lists by
`Array.from`, exactly as `JSON.stringify` receives them). -/
structure Checkpoint where
  lastDocumentItemId : Option String
  documentItemCount : Nat
  allItemIds : List String
  reasonStats : List (String × ReasonStat)
  samples : List SampleRow
deriving DecidableEq

/-- Serialization of the in-memory aggregates into a `Checkpoint` (the
`checkpointData` / `finalCheckpoint` construction: `Array.from` on each set
and on each reason entry, in map insertion order). -/
def mkCkpt (lastDocumentItemId : Option String) (agg : AggState) : Checkpoint :=
  { lastDocumentItemId := lastDocumentItemId
    documentItemCount := agg.documentItemCount
    allItemIds := agg.allItemIds
    reasonStats := agg.reasonStats
    samples := agg.samples }

/-- Restoring the in-memory aggregates from a loaded checkpoint (lines
87–97: fresh `Map`/`Set` objects rebuilt from the serialized lists). -/
def restoreAgg (cp : Checkpoint) : AggState :=
  { documentItemCount := cp.documentItemCount
    allItemIds := ssetOfList cp.allItemIds
    reasonStats :=
      cp.reasonStats.foldl
        (fun m e => statsSet m e.1 { count := e.2.count, itemIds := ssetOfList e.2.itemIds }) []
    samples := cp.samples }

/-- `SAMPLE_LIMIT`. -/
def SAMPLE_LIMIT : Nat := 20

/-- `BATCH_SIZE`. -/
def BATCH_SIZE : Nat := 5000

/-- `CHECKPOINT_SAVE_INTERVAL`. -/
def CHECKPOINT_SAVE_INTERVAL : Nat := 5

/-- The single reason code used by the detector. -/
def mismatchReasonCode : String := "儲存庫學程與題目學程不一致"

/-- `itemYearMap` update (lines 212–217): `existing.add(bodyId)` when the key
is present (entry keeps its position), otherwise
`itemYearMap.set(itemId, new Set([bodyId]))` (appended). -/
def addBodyToYearMap (m : List (String × List String)) (iid body : String) :
    List (String × List String) :=
  match m with
  | [] => [(iid, [body])]
  | e :: rest =>
    if e.1 = iid then (e.1, ssetAdd e.2 body) :: rest
    else e :: addBodyToYearMap rest iid body

/-- One step of building `itemYearMap` from the batch lookup cursor over
`ItemYearDimensionValues` (`{ itemId: { $in: itemIdList } }`): a raw document
matches only when its raw `itemId` is present and in the batch key list; then
the loop body stringifies, skips empty `bodyOfKnowledgeId`, and adds the body
to the per-item set (an existing set is mutated in place, a fresh singleton
set is appended — `addBodyToYearMap`). -/
def yearStep (itemIds : List String) (m : List (String × List String)) (row : ItemYearRow) :
    List (String × List String) :=
  match row.itemId with
  | none => m
  | some s =>
    if s ∈ itemIds then
      let iid := strOr (some s) "未知"
      let body := strOr row.bodyOfKnowledgeId ""
      if body = "" then m
      else addBodyToYearMap m iid body
    else m

/-- The per-batch resolution map `itemYearMap` (itemId → set of non-empty
`bodyOfKnowledgeId` values), built by one bulk `$in` lookup. -/
def buildItemYearMap (env : Env) (itemIds : List String) : List (String × List String) :=
  env.itemYears.foldl (yearStep itemIds) []

/-- `itemYearMap.get`. -/
def yearMapGet (m : List (String × List String)) (k : String) : Option (List String) :=
  (m.find? (fun e => e.1 == k)).map (fun e => e.2)

/-- The sample record pushed for a violating row. -/
def mkSampleRow (row : DocumentItemRow) (repoId repoBodyId : String)
    (bodies : List String) : SampleRow :=
  { documentItemId := row.documentItemId
    itemId := row.itemId
    documentId := row.documentId
    documentRepoId := repoId
    repoBodyOfKnowledgeId := repoBodyId
    itemYearBodies := bodies
    mismatchReason := mismatchReasonCode }

/-- The body of `rows.forEach` inside `processBatch` (lines 220–254): resolve
the repository through the two reference maps, look the item up in the
batch-local `itemYearMap`, skip undeterminable rows, and count a violation
when the resolved body set does not contain the repository's body id. -/
def applyRowWith (env : Env) (m : List (String × List String)) (agg : AggState)
    (row : DocumentItemRow) : AggState :=
  let repoId := (env.documentRepoMap row.documentId).getD ""
  let repoBodyId := (env.repoBodyMap repoId).getD ""
  let itemYearBodies := yearMapGet m row.itemId
  if repoId = "" ∨ repoBodyId = "" then agg
  else
    match itemYearBodies with
    | none => agg
    | some bodies =>
      if bodies.length = 0 then agg
      else if repoBodyId ∈ bodies then agg
      else
        let stat := (statsGet agg.reasonStats mismatchReasonCode).getD { count := 0, itemIds := [] }
        { documentItemCount := agg.documentItemCount + 1
          allItemIds := ssetAdd agg.allItemIds row.itemId
          reasonStats := statsSet agg.reasonStats mismatchReasonCode
            { count := stat.count + 1, itemIds := ssetAdd stat.itemIds row.itemId }
          samples :=
            if agg.samples.length < SAMPLE_LIMIT then
              agg.samples ++ [mkSampleRow row repoId repoBodyId bodies]
            else agg.samples }

/-- Row classification against a batch that resolves exactly this row's item:
a reference form used to state batching-independence of the aggregates. -/
def applyRowG (env : Env) (agg : AggState) (row : DocumentItemRow) : AggState :=
  applyRowWith env (buildItemYearMap env [row.itemId]) agg row

/-- Scan-loop state: aggregates plus the batch accumulator, the checkpoint
cadence counters, the resume cursor, and observation logs of the checkpoints
written (`saved`) and the batches processed (`batches`). -/
structure ScanState where
  agg : AggState
  batchRows : List DocumentItemRow
  batchItemIds : List String
  batchIndex : Nat
  batchesSinceSave : Nat
  lastProcessedId : Option String
  saved : List Checkpoint
  batches : List (List DocumentItemRow × List String)
deriving DecidableEq

/-- Scan configuration: the run environment, the distinct-key threshold
(`BATCH_SIZE`), the checkpoint cadence (`CHECKPOINT_SAVE_INTERVAL`) and the
optional `--max-batches` bound. -/
structure ScanCfg where
  env : Env
  batchSize : Nat
  saveInterval : Nat
  maxBatches : Option Nat

/-- `processBatch` (lines 192–255): an empty batch returns immediately;
otherwise the batch index is bumped, one bulk lookup builds `itemYearMap`,
and every buffered row is classified.  The batch handed over is logged. -/
def processBatch (env : Env) (st : ScanState) (rows : List DocumentItemRow)
    (itemIds : List String) : ScanState :=
  if rows.isEmpty then st
  else
    { st with
      batchIndex := st.batchIndex + 1
      agg := rows.foldl (applyRowWith env (buildItemYearMap env itemIds)) st.agg
      batches := st.batches ++ [(rows, itemIds)] }

/-- The stringified projection of a scanned cursor row (lines 283–285). -/
def procRow (r : RawDocumentItem) : DocumentItemRow :=
  { documentItemId := strOr (some r.id) "未知"
    itemId := strOr r.itemId "未知"
    documentId := strOr r.documentId "" }

/-- Lines 287–289: buffer the row, add its item key, advance the cursor. -/
def pushRow (st : ScanState) (r : RawDocumentItem) : ScanState :=
  { st with
    batchRows := st.batchRows ++ [procRow r]
    batchItemIds := ssetAdd st.batchItemIds (procRow r).itemId
    lastProcessedId := some (procRow r).documentItemId }

/-- Lines 292–314: flush the accumulated batch through `processBatch`, clear
the buffers, and every `saveInterval` flushes serialize the aggregates and
write a checkpoint. -/
def flushAndSave (cfg : ScanCfg) (st : ScanState) : ScanState :=
  let st2 := processBatch cfg.env st st.batchRows st.batchItemIds
  let st3 := { st2 with batchRows := [], batchItemIds := [] }
  if cfg.saveInterval ≤ st3.batchesSinceSave + 1 then
    { st3 with
      batchesSinceSave := 0
      saved := st3.saved ++ [mkCkpt st3.lastProcessedId st3.agg] }
  else { st3 with batchesSinceSave := st3.batchesSinceSave + 1 }

/-- One iteration of the `for await` scan loop (lines 277–321).  Returns the
new state and whether the loop `break`s: the accumulated distinct-key count is
compared with the threshold after each row, and the `--max-batches` stop
condition is only consulted right after a flush. -/
def absorbRow (cfg : ScanCfg) (st : ScanState) (r : RawDocumentItem) : ScanState × Bool :=
  let st1 := pushRow st r
  if cfg.batchSize ≤ st1.batchItemIds.length then
    let st2 := flushAndSave cfg st1
    match cfg.maxBatches with
    | some n => (st2, decide (n ≤ st2.batchIndex))
    | none => (st2, false)
  else (st1, false)

/-- The scan loop: consume cursor rows until exhaustion or cancellation;
returns the final state and the rows left unread by an early `break`. -/
def scanRows (cfg : ScanCfg) : List RawDocumentItem → ScanState → ScanState × List RawDocumentItem
  | [], st => (st, [])
  | r :: rest, st =>
    let p := absorbRow cfg st r
    if p.2 then (p.1, rest) else scanRows cfg rest p.1

/-- A whole scanning run (lines 277–338): the loop, the final drain
`processBatch` on whatever is still buffered, and the unconditional final
checkpoint save. -/
def runScan (cfg : ScanCfg) (rows : List RawDocumentItem) (st0 : ScanState) : ScanState :=
  let st := (scanRows cfg rows st0).1
  let st := processBatch cfg.env st st.batchRows st.batchItemIds
  { st with saved := st.saved ++ [mkCkpt st.lastProcessedId st.agg] }

/-- Scan state at run start (lines 77–97, 184–190): aggregates restored from
the checkpoint when one was loaded, buffers empty, cursor at the checkpointed
key. -/
def initState (cp : Option Checkpoint) : ScanState :=
  { agg := match cp with | some c => restoreAgg c | none => emptyAgg
    batchRows := []
    batchItemIds := []
    batchIndex := 0
    batchesSinceSave := 0
    lastProcessedId := cp.bind (fun c => c.lastDocumentItemId)
    saved := []
    batches := [] }

/-- The `$gt` cursor bound derived from the loaded checkpoint (lines 78 and
257–259: a falsy — absent or empty — `lastDocumentItemId` means no bound). -/
def lastKeyOf (cp : Option Checkpoint) : Option String :=
  match cp.bind (fun c => c.lastDocumentItemId) with
  | some k => if k = "" then none else some k
  | none => none

/-- The `documentItemQuery` filter (lines 257–269): key strictly greater than
the checkpointed key when one exists, an inclusive `$gte` lower and an
exclusive `$lt` upper bound on `addedOn` when supplied (a `$gte`/`$lt` date
bound only matches documents whose `addedOn` is present). -/
def matchesQuery (lastKey : Option String) (startDate endDate : Option Int)
    (r : RawDocumentItem) : Bool :=
  (match lastKey with
   | some k => strLt k r.id
   | none => true) &&
  (match startDate with
   | some s => match r.addedOn with
     | some t => decide (s ≤ t)
     | none => false
   | none => true) &&
  (match endDate with
   | some e => match r.addedOn with
     | some t => decide (t < e)
     | none => false
   | none => true)

/-- The primary cursor (lines 271–275): the snapshot filtered by
`documentItemQuery` and delivered sorted ascending by `_id`. -/
def documentItemQueryRows (coll : List RawDocumentItem) (lastKey : Option String)
    (startDate endDate : Option Int) : List RawDocumentItem :=
  (coll.filter (matchesQuery lastKey startDate endDate)).insertionSort
    (fun a b => strLe a.id b.id = true)

/-- A fresh, uninterrupted run over a snapshot (no checkpoint on disk). -/
def fullScanRun (env : Env) (batchSize saveInterval : Nat)
    (coll : List RawDocumentItem) (startDate endDate : Option Int) : ScanState :=
  runScan { env := env, batchSize := batchSize, saveInterval := saveInterval, maxBatches := none }
    (documentItemQueryRows coll (lastKeyOf none) startDate endDate)
    (initState none)

/-- A run resumed from a saved checkpoint, run to end-of-input. -/
def resumeScanRun (env : Env) (batchSize saveInterval : Nat)
    (coll : List RawDocumentItem) (startDate endDate : Option Int)
    (cp : Checkpoint) : ScanState :=
  runScan { env := env, batchSize := batchSize, saveInterval := saveInterval, maxBatches := none }
    (documentItemQueryRows coll (lastKeyOf (some cp)) startDate endDate)
    (initState (some cp))

/-- `loadCheckpoint` (lines 58–67): `none` when the file is absent or its
content is blank after trimming; otherwise the parsed checkpoint (`parse`
stands for a successful `JSON.parse`). -/
def loadCheckpoint (content : Option String) (parse : String → Checkpoint) : Option Checkpoint :=
  match content with
  | none => none
  | some raw => if jsTrim raw = "" then none else some (parse raw)

/-- One Markdown row of the reason-statistics table (line 117). -/
def statLine (e : String × ReasonStat) : String :=
  "|" ++ e.1 ++ "|" ++ toString e.2.count ++ "|" ++ toString e.2.itemIds.length ++ "|"

/-- One Markdown row of the sample table (lines 126–142). -/
def sampleLine (s : SampleRow) : String :=
  "|" ++ s.documentItemId ++ "|" ++ s.itemId ++ "|" ++ s.documentId ++ "|" ++
    s.documentRepoId ++ "|" ++ s.repoBodyOfKnowledgeId ++ "|" ++
    String.intercalate ", " s.itemYearBodies ++ "|" ++ s.mismatchReason ++ "|"

/-- The report lines produced by `--finalize-only` (lines 103–144), rendered
from the aggregates restored out of the checkpoint; `now` is the formatted
current time `new Date().toLocaleString('zh-TW')`. -/
def finalizeLines (cp : Checkpoint) (now : String) : List String :=
  let agg := restoreAgg cp
  "# 題目關聯儲存庫與題目學程不一致統計" ::
  "" ::
  ("**查詢時間**: " ++ now) ::
  ("**不一致文件題目筆數**: " ++ toString agg.documentItemCount) ::
  ("**涉及題目數**: " ++ toString agg.allItemIds.length) ::
  "" ::
  "## 不一致類型統計" ::
  "" ::
  "|不一致類型|文件題目筆數|涉及題目數|" ::
  "|---|---:|---:|" ::
  (agg.reasonStats.map statLine ++
    ("" ::
     "## 前 20 筆明細" ::
     "" ::
     "|文件題目 Id|題目 Id|五欄檔案 Id|五欄檔案儲存庫 Id|儲存庫學程 Id|題目學程 Id 清單|不一致原因|" ::
     "|---|---|---|---|---|---|---|" ::
     agg.samples.map sampleLine))

/-- The `--finalize-only` entry path (lines 77–148): load the checkpoint; if
none, log the failure message and return without writing anything; otherwise
log the resume notice and write the rendered report (`lines.join('\n')`).
Result: (console messages, content written to the report file if any). -/
def finalizeMain (fileContent : Option String) (parse : String → Checkpoint)
    (now : String) : List String × Option String :=
  match loadCheckpoint fileContent parse with
  | none => (["找不到續跑檔案，無法輸出暫存結果"], none)
  | some cp =>
    (["已讀取續跑檔案，從 documentItemId " ++
        (match cp.lastDocumentItemId with
         | some k => if k = "" then "起始" else k
         | none => "起始") ++ " 開始"],
     some (String.intercalate "\n" (finalizeLines cp now)))

/-- Lowercase hexadecimal digit. -/
def hexDigit (n : Nat) : Char :=
  if n < 10 then Char.ofNat (48 + n) else Char.ofNat (87 + n)

/-- JSON string escaping as performed by `JSON.stringify`. -/
def jsonEscapeChar (c : Char) : List Char :=
  if c = '"' then ['\\', '"']
  else if c = '\\' then ['\\', '\\']
  else if c = '\n' then ['\\', 'n']
  else if c = '\r' then ['\\', 'r']
  else if c = '\t' then ['\\', 't']
  else if c.toNat = 8 then ['\\', 'b']
  else if c.toNat = 12 then ['\\', 'f']
  else if c.toNat < 32 then ['\\', 'u', '0', '0', hexDigit (c.toNat / 16), hexDigit (c.toNat % 16)]
  else [c]

/-- A JSON string literal. -/
def jsonQuote (s : String) : String :=
  ⟨'"' :: s.data.foldr (fun c acc => jsonEscapeChar c ++ acc) ['"']⟩

/-- Indentation produced by `JSON.stringify(value, null, 2)` at depth `d`. -/
def jsIndent (d : Nat) : String :=
  ⟨List.replicate (2 * d) ' '⟩

/-- A pretty-printed JSON array whose opening bracket sits at depth `d`
(already-serialized element strings). -/
def jsonArr (d : Nat) (items : List String) : String :=
  if items.isEmpty then "[]"
  else
    "[\n" ++ String.intercalate ",\n" (items.map (fun it => jsIndent (d + 1) ++ it)) ++
      "\n" ++ jsIndent d ++ "]"

/-- A pretty-printed JSON object whose opening brace sits at depth `d`
(fields as key / already-serialized value pairs). -/
def jsonObjFields (d : Nat) (fields : List (String × String)) : String :=
  if fields.isEmpty then "\x7b\x7d"
  else
    "\x7b\n" ++
      String.intercalate ",\n"
        (fields.map (fun f => jsIndent (d + 1) ++ jsonQuote f.1 ++ ": " ++ f.2)) ++
      "\n" ++ jsIndent d ++ "\x7d"

/-- Serialization of one sample record at depth `d` (field order is the
object-literal order of the `samples.push` call). -/
def serializeSample (d : Nat) (s : SampleRow) : String :=
  jsonObjFields d
    [("documentItemId", jsonQuote s.documentItemId),
     ("itemId", jsonQuote s.itemId),
     ("documentId", jsonQuote s.documentId),
     ("documentRepoId", jsonQuote s.documentRepoId),
     ("repoBodyOfKnowledgeId", jsonQuote s.repoBodyOfKnowledgeId),
     ("itemYearBodies", jsonArr (d + 1) (s.itemYearBodies.map jsonQuote)),
     ("mismatchReason", jsonQuote s.mismatchReason)]

/-- Serialization of one reason entry value at depth `d`. -/
def serializeStat (d : Nat) (st : ReasonStat) : String :=
  jsonObjFields d
    [("count", toString st.count),
     ("itemIds", jsonArr (d + 1) (st.itemIds.map jsonQuote))]

/-- `JSON.stringify(checkpoint, null, 2)`: the exact byte content handed to
`fs.writeFileSync` by `saveCheckpoint` (an `undefined` `lastDocumentItemId`
is omitted; field order is the `Checkpoint` literal order). -/
def serializeCheckpoint (cp : Checkpoint) : String :=
  jsonObjFields 0
    ((match cp.lastDocumentItemId with
      | some k => [("lastDocumentItemId", jsonQuote k)]
      | none => []) ++
     [("documentItemCount", toString cp.documentItemCount),
      ("allItemIds", jsonArr 1 (cp.allItemIds.map jsonQuote)),
      ("reasonStats", jsonObjFields 1
        (cp.reasonStats.map (fun e => (e.1, serializeStat 2 e.2)))),
      ("samples", jsonArr 1 (cp.samples.map (serializeSample 2)))])

/-- `fs.writeFileSync` truncates the target and writes the data in place —
there is no temporary file and no rename.  These are the file contents
observable if the write is interrupted after `k` characters. -/
def writeFileSyncIntermediates (data : String) : List String :=
  (List.range (data.length + 1)).map (fun k => ⟨data.data.take k⟩)

/-- The intermediate file contents of one `saveCheckpoint` invocation. -/
def saveCheckpointIntermediates (cp : Checkpoint) : List String :=
  writeFileSyncIntermediates (serializeCheckpoint cp)

/-- `saveCheckpoint` (lines 69–71): the file content after the single
`fs.writeFileSync` completes, given the previous content. -/
def saveCheckpoint (_oldContent : Option String) (cp : Checkpoint) : Option String :=
  some (serializeCheckpoint cp)

/-- `a` is a prefix of `b` (string character-prefix relation). -/
def strPref (a b : String) : Prop :=
  ∃ t, a.data ++ t = b.data

/-! ### Derived specification-level definitions -/

/-- Total violation count across reasons. -/
def sumCounts (m : List (String × ReasonStat)) : Nat :=
  (m.map (fun e => e.2.count)).sum

/-- Aggregate-state well-formedness produced by actual runs: all the
embedded JavaScript `Set`s and `Map`s are duplicate-free. -/
def AggNodup (agg : AggState) : Prop :=
  agg.allItemIds.Nodup ∧ (agg.reasonStats.map Prod.fst).Nodup ∧
    ∀ e ∈ agg.reasonStats, e.2.itemIds.Nodup

/-- The aggregates obtained by classifying a list of raw rows one at a time
(row-locally), starting from `a0` — the batching-free reference semantics. -/
def aggFrom (env : Env) (a0 : AggState) (l : List RawDocumentItem) : AggState :=
  (l.map procRow).foldl (applyRowG env) a0

/-- The cursor value after scanning `l`, starting from `l0`. -/
def lastIdFrom (l0 : Option String) (l : List RawDocumentItem) : Option String :=
  match l.getLast? with
  | some r => some (procRow r).documentItemId
  | none => l0

/-- Loop invariant tying a scan state to the raw rows already flushed (`C`)
and the raw rows sitting in the accumulator (`B`). -/
def StateSpec (env : Env) (bs : Nat) (a0 : AggState) (l0 : Option String)
    (C B : List RawDocumentItem) (st : ScanState) : Prop :=
  st.agg = aggFrom env a0 C ∧
  st.batchRows = B.map procRow ∧
  st.batchItemIds = ssetOfList (st.batchRows.map (fun x => x.itemId)) ∧
  st.batchItemIds.length < bs ∧
  st.lastProcessedId = lastIdFrom l0 (C ++ B)

/-- Every checkpoint written so far snapshots the aggregates of a nonempty
prefix of the flushed rows, keyed by that prefix's last scanned id. -/
def SavedSpec (env : Env) (a0 : AggState) (l0 : Option String)
    (C : List RawDocumentItem) (st : ScanState) : Prop :=
  ∀ cp ∈ st.saved, ∃ P S, C = P ++ S ∧ P ≠ [] ∧
    cp = mkCkpt (lastIdFrom l0 P) (aggFrom env a0 P)

/-- Well-formedness of a batch handed to `processBatch`: its key set is the
distinct-item set of its rows, it is within the threshold, and before its last
row was absorbed the distinct count was still below the threshold. -/
def BatchOK (bs : Nat) (b : List DocumentItemRow × List String) : Prop :=
  b.2 = ssetOfList (b.1.map (fun x => x.itemId)) ∧
  b.2.length ≤ bs ∧
  (ssetOfList (b.1.dropLast.map (fun x => x.itemId))).length < bs

def BatchesSpec (bs : Nat) (st : ScanState) : Prop :=
  ∀ b ∈ st.batches, BatchOK bs b

/-- The aggregates serialized inside a checkpoint, viewed as a state. -/
def ckptAgg (ck : Checkpoint) : AggState :=
  { documentItemCount := ck.documentItemCount
    allItemIds := ck.allItemIds
    reasonStats := ck.reasonStats
    samples := ck.samples }

/-- The implicit consistency invariant of the aggregates: the global counter
is the sum of the per-reason counters and the global distinct-id set is the
union of the per-reason distinct-id sets. -/
def AggInv (agg : AggState) : Prop :=
  agg.documentItemCount = sumCounts agg.reasonStats ∧
  (∀ x ∈ agg.allItemIds, ∃ e ∈ agg.reasonStats, x ∈ e.2.itemIds) ∧
  (∀ e ∈ agg.reasonStats, ∀ x ∈ e.2.itemIds, x ∈ agg.allItemIds)

/-- Bundle the run parameters of one invocation. -/
def mkCfg (env : Env) (batchSize saveInterval : Nat) (maxBatches : Option Nat) : ScanCfg :=
  { env := env, batchSize := batchSize, saveInterval := saveInterval,
    maxBatches := maxBatches }

/-! ### Concrete run instances used to exercise the theorems -/

/-- A run environment with empty reference maps and an empty tertiary
collection. -/
def wEnv : Env :=
  { documentRepoMap := fun _ => none, repoBodyMap := fun _ => none, itemYears := [] }

/-- A two-row primary snapshot. -/
def wColl : List RawDocumentItem :=
  [{ id := "a", itemId := none, documentId := none, addedOn := none },
   { id := "b", itemId := none, documentId := none, addedOn := none }]

/-- The checkpoint written after the first one-key batch of `wColl` under a
threshold of 1 and a save cadence of 1. -/
def wCp : Checkpoint :=
  { lastDocumentItemId := some "a", documentItemCount := 0, allItemIds := [],
    reasonStats := [], samples := [] }

/-- An environment in which item `I1` violates the body-of-knowledge rule. -/
def wEnv2 : Env :=
  { documentRepoMap := fun d => if d = "D1" then some "R1" else none
    repoBodyMap := fun rid => if rid = "R1" then some "bodyA" else none
    itemYears := [{ itemId := some "I1", bodyOfKnowledgeId := some "bodyB" }] }

/-- The primary row joining document `D1` with item `I1`. -/
def wRow2 : DocumentItemRow :=
  { documentItemId := "DI1", itemId := "I1", documentId := "D1" }

/-- The first batch flushed when scanning `wColl` with a threshold of 1. -/
def wBatch : List DocumentItemRow × List String :=
  ([⟨"a", "未知", ""⟩], ["未知"])

/-- An empty checkpoint (no cursor yet). -/
def wCp4 : Checkpoint :=
  { lastDocumentItemId := none, documentItemCount := 0, allItemIds := [],
    reasonStats := [], samples := [] }

/-! ### Basic facts about the embedded JavaScript collections -/

theorem mem_ssetAdd {s : List String} {x y : String} :
    x ∈ ssetAdd s y ↔ x ∈ s ∨ x = y := by
  unfold ssetAdd
  split
  · constructor
    · exact fun h => Or.inl h
    · rintro (h | rfl)
      · exact h
      · assumption
  · simp [List.mem_append]

theorem ssetAdd_nodup {s : List String} {y : String} (h : s.Nodup) :
    (ssetAdd s y).Nodup := by
  unfold ssetAdd
  split
  · exact h
  · rename_i hy
    exact List.nodup_append.mpr ⟨h, List.nodup_singleton y,
      fun a ha hmem => by simp at hmem; exact hy (hmem ▸ ha)⟩

theorem length_ssetAdd_le (s : List String) (y : String) :
    (ssetAdd s y).length ≤ s.length + 1 := by
  unfold ssetAdd; split <;> simp

theorem le_length_ssetAdd (s : List String) (y : String) :
    s.length ≤ (ssetAdd s y).length := by
  unfold ssetAdd; split <;> simp

theorem mem_foldl_ssetAdd :
    ∀ (l : List String) (acc : List String) (x : String),
      x ∈ l.foldl ssetAdd acc ↔ x ∈ acc ∨ x ∈ l := by
  intro l
  induction l with
  | nil => simp
  | cons a t ih =>
    intro acc x
    rw [List.foldl_cons, ih]
    simp [mem_ssetAdd]
    tauto

theorem mem_ssetOfList {l : List String} {x : String} :
    x ∈ ssetOfList l ↔ x ∈ l := by
  simp [ssetOfList, mem_foldl_ssetAdd]

theorem foldl_ssetAdd_nodup :
    ∀ (l acc : List String), acc.Nodup → (l.foldl ssetAdd acc).Nodup := by
  intro l
  induction l with
  | nil => exact fun acc h => h
  | cons a t ih => exact fun acc h => ih _ (ssetAdd_nodup h)

theorem ssetOfList_nodup (l : List String) : (ssetOfList l).Nodup :=
  foldl_ssetAdd_nodup l [] (by simp)

theorem foldl_ssetAdd_eq_append :
    ∀ (l acc : List String), l.Nodup → (∀ x ∈ l, x ∉ acc) →
      l.foldl ssetAdd acc = acc ++ l := by
  intro l
  induction l with
  | nil => simp
  | cons a t ih =>
    intro acc hnd hno
    rw [List.foldl_cons]
    have ha : ssetAdd acc a = acc ++ [a] := by
      unfold ssetAdd
      split
      · exact absurd ‹a ∈ acc› (hno a (by simp))
      · rfl
    rw [ha, ih (acc ++ [a]) (List.Nodup.of_cons hnd)]
    · simp
    · intro x hx
      simp only [List.mem_append, List.mem_singleton]
      rintro (hacc | rfl)
      · exact hno x (by simp [hx]) hacc
      · exact (List.nodup_cons.mp hnd).1 hx

theorem ssetOfList_eq_self {l : List String} (h : l.Nodup) : ssetOfList l = l := by
  simpa using foldl_ssetAdd_eq_append l [] h (by simp)

theorem length_le_foldl_ssetAdd :
    ∀ (l acc : List String), acc.length ≤ (l.foldl ssetAdd acc).length := by
  intro l
  induction l with
  | nil => simp
  | cons a t ih =>
    intro acc
    exact le_trans (le_length_ssetAdd acc a) (ih _)

theorem ssetOfList_append (l l' : List String) :
    ssetOfList (l ++ l') = l'.foldl ssetAdd (ssetOfList l) := by
  simp [ssetOfList, List.foldl_append]

theorem length_ssetOfList_dropLast_le (l : List String) :
    (ssetOfList l.dropLast).length ≤ (ssetOfList l).length := by
  rcases List.eq_nil_or_concat l with rfl | ⟨l', a, rfl⟩
  · simp
  · rw [List.concat_eq_append, List.dropLast_concat, ssetOfList_append]
    exact length_le_foldl_ssetAdd [a] _

/-! ### The lexicographic key order -/

theorem char_toNat_inj {a b : Char} (h : a.toNat = b.toNat) : a = b := by
  apply Char.ext; apply UInt32.ext; exact h

theorem charListLt_irrefl : ∀ l, charListLt l l = false := by
  intro l
  induction l with
  | nil => rfl
  | cons a t ih => simp [charListLt, ih]

theorem charListLt_asymm :
    ∀ a b, charListLt a b = true → charListLt b a = true → False := by
  intro a
  induction a with
  | nil =>
    intro b h1 h2
    cases b with
    | nil => simp [charListLt] at h1
    | cons y ys => simp [charListLt] at h2
  | cons x xs ih =>
    intro b h1 h2
    cases b with
    | nil => simp [charListLt] at h1
    | cons y ys =>
      simp only [charListLt] at h1 h2
      split_ifs at h1 h2 <;> first
        | omega
        | exact ih ys h1 h2

theorem charListLt_trans :
    ∀ a b c, charListLt a b = true → charListLt b c = true → charListLt a c = true := by
  intro a
  induction a with
  | nil =>
    intro b c h1 h2
    cases b with
    | nil => simp [charListLt] at h1
    | cons y ys =>
      cases c with
      | nil => simp [charListLt] at h2
      | cons z zs => rfl
  | cons x xs ih =>
    intro b c h1 h2
    cases b with
    | nil => simp [charListLt] at h1
    | cons y ys =>
      cases c with
      | nil => simp [charListLt] at h2
      | cons z zs =>
        simp only [charListLt] at h1 h2 ⊢
        split_ifs at h1 h2 ⊢ <;> first
          | rfl
          | omega
          | exact ih ys zs h1 h2

theorem charListLt_connex :
    ∀ a b, charListLt a b = false → charListLt b a = false → a = b := by
  intro a
  induction a with
  | nil =>
    intro b h1 _
    cases b with
    | nil => rfl
    | cons y ys => simp [charListLt] at h1
  | cons x xs ih =>
    intro b h1 h2
    cases b with
    | nil => simp [charListLt] at h2
    | cons y ys =>
      simp only [charListLt] at h1 h2
      split_ifs at h1 h2 <;> try omega
      have hxy : x = y := char_toNat_inj (by omega)
      rw [hxy, ih ys h1 h2]

theorem strLt_asymm {a b : String} (h1 : strLt a b = true) (h2 : strLt b a = true) : False :=
  charListLt_asymm _ _ h1 h2

theorem strLt_irrefl (a : String) : strLt a a = false :=
  charListLt_irrefl _

theorem strLt_trans {a b c : String} (h1 : strLt a b = true) (h2 : strLt b c = true) :
    strLt a c = true :=
  charListLt_trans _ _ _ h1 h2

theorem strLt_connex {a b : String} (h1 : strLt a b = false) (h2 : strLt b a = false) :
    a = b :=
  String.ext (charListLt_connex _ _ h1 h2)

theorem strLe_trans {a b c : String} (h1 : strLe a b = true) (h2 : strLe b c = true) :
    strLe a c = true := by
  have h1' : strLt b a = false := by simpa [strLe] using h1
  have h2' : strLt c b = false := by simpa [strLe] using h2
  have hres : strLt c a = false := by
    by_contra hca
    rw [Bool.not_eq_false] at hca
    cases hbc : strLt b c with
    | true => exact absurd (strLt_trans hbc hca) (by simp [h1'])
    | false =>
      have hb : b = c := strLt_connex hbc h2'
      rw [hb] at h1'
      exact absurd hca (by simp [h1'])
  simpa [strLe] using hres

theorem strLe_total (a b : String) : (strLe a b || strLe b a) = true := by
  simp only [strLe]
  cases hba : strLt b a with
  | false => simp
  | true =>
    cases hab : strLt a b with
    | false => simp
    | true => exact absurd (strLt_asymm hab hba) (fun h => h)

/-! ### Facts about the reason-stats map -/

theorem statsGet_eq_some_mem :
    ∀ {m : List (String × ReasonStat)} {k : String} {v : ReasonStat},
      statsGet m k = some v → (k, v) ∈ m := by
  intro m
  induction m with
  | nil => intro k v h; simp [statsGet] at h
  | cons e rest ih =>
    rcases e with ⟨k1, v1⟩
    intro k v h
    by_cases hk : k1 = k
    · subst hk
      simp [statsGet, List.find?_cons] at h
      subst h
      exact List.mem_cons_self _ _
    · simp [statsGet, List.find?_cons, beq_false_of_ne hk] at h
      exact List.mem_cons_of_mem _ (ih (by simpa [statsGet] using h))

theorem statsGet_statsSet_self (m : List (String × ReasonStat)) (k : String) (v : ReasonStat) :
    statsGet (statsSet m k v) k = some v := by
  induction m with
  | nil => simp [statsSet, statsGet, List.find?_cons]
  | cons e rest ih =>
    by_cases hk : e.1 = k
    · simp [statsSet, hk, statsGet, List.find?_cons]
    · simp only [statsSet, if_neg hk, statsGet, List.find?_cons]
      rw [show (e.1 == k) = false by simp [hk]]
      exact ih

theorem statsGet_statsSet_ne (m : List (String × ReasonStat)) (k k' : String) (v : ReasonStat)
    (h : k' ≠ k) : statsGet (statsSet m k v) k' = statsGet m k' := by
  have hkk : (k == k') = false := beq_false_of_ne (Ne.symm h)
  induction m with
  | nil => simp [statsSet, statsGet, List.find?_cons, hkk]
  | cons e rest ih =>
    rcases e with ⟨k1, v1⟩
    by_cases hk : k1 = k
    · subst hk
      simp [statsSet, statsGet, List.find?_cons, hkk]
    · by_cases hk1 : k1 = k'
      · subst hk1
        simp [statsSet, if_neg hk, statsGet, List.find?_cons]
      · simp only [statsSet, if_neg hk, statsGet, List.find?_cons,
          beq_false_of_ne hk1]
        simpa [statsGet] using ih

theorem sumCounts_statsSet (m : List (String × ReasonStat)) (k : String) (v : ReasonStat) :
    sumCounts (statsSet m k v) + ((statsGet m k).getD { count := 0, itemIds := [] }).count =
      sumCounts m + v.count := by
  induction m with
  | nil => simp [statsSet, statsGet, sumCounts]
  | cons e rest ih =>
    rcases e with ⟨k1, v1⟩
    by_cases hk : k1 = k
    · subst hk
      simp [statsSet, statsGet, List.find?_cons, sumCounts]
      omega
    · simp only [statsSet, if_neg hk, statsGet, List.find?_cons,
        beq_false_of_ne hk]
      simp only [sumCounts, List.map_cons, List.sum_cons]
      have hih := ih
      simp only [sumCounts, statsGet] at hih
      omega

theorem keys_statsSet (m : List (String × ReasonStat)) (k : String) (v : ReasonStat) :
    (statsSet m k v).map Prod.fst =
      if k ∈ m.map Prod.fst then m.map Prod.fst else m.map Prod.fst ++ [k] := by
  induction m with
  | nil => simp [statsSet]
  | cons e rest ih =>
    rcases e with ⟨k1, v1⟩
    by_cases hk : k1 = k
    · subst hk
      simp [statsSet]
    · have hne : k ≠ k1 := fun hh => hk hh.symm
      simp only [statsSet, if_neg hk, List.map_cons, ih, List.mem_cons]
      by_cases hmem : k ∈ rest.map Prod.fst
      · simp [hmem, hne]
      · simp [hmem, hne]

theorem keysNodup_statsSet {m : List (String × ReasonStat)} {k : String} {v : ReasonStat}
    (h : (m.map Prod.fst).Nodup) : ((statsSet m k v).map Prod.fst).Nodup := by
  rw [keys_statsSet]
  split
  · exact h
  · rename_i hk
    exact List.nodup_append.mpr ⟨h, List.nodup_singleton k,
      fun a ha hmem => by simp at hmem; exact hk (hmem ▸ ha)⟩

theorem mem_statsSet_iff {m : List (String × ReasonStat)} {k : String} {v : ReasonStat}
    {e : String × ReasonStat} (hnd : (m.map Prod.fst).Nodup) :
    e ∈ statsSet m k v ↔ (e ∈ m ∧ e.1 ≠ k) ∨ e = (k, v) := by
  induction m with
  | nil => simp [statsSet]
  | cons f rest ih =>
    simp only [List.map_cons, List.nodup_cons] at hnd
    by_cases hk : f.1 = k
    · simp only [statsSet, if_pos hk, List.mem_cons]
      constructor
      · rintro (rfl | hmem)
        · exact Or.inr rfl
        · refine Or.inl ⟨Or.inr hmem, ?_⟩
          intro hek
          apply hnd.1
          have hmm : e.1 ∈ rest.map Prod.fst := List.mem_map_of_mem Prod.fst hmem
          rwa [hek, ← hk] at hmm
      · rintro (⟨hmem | hmem, hne⟩ | rfl)
        · exact absurd (hmem ▸ hk) (hmem ▸ hne)
        · exact Or.inr hmem
        · exact Or.inl rfl
    · simp only [statsSet, if_neg hk, List.mem_cons, ih hnd.2]
      constructor
      · rintro (rfl | ⟨hmem, hne⟩ | rfl)
        · exact Or.inl ⟨Or.inl rfl, fun hh => hk hh⟩
        · exact Or.inl ⟨Or.inr hmem, hne⟩
        · exact Or.inr rfl
      · rintro (⟨hmem | hmem, hne⟩ | rfl)
        · exact Or.inl hmem
        · exact Or.inr (Or.inl ⟨hmem, hne⟩)
        · exact Or.inr (Or.inr rfl)

theorem statsSet_of_not_mem_keys :
    ∀ {m : List (String × ReasonStat)} {k : String} {v : ReasonStat},
      k ∉ m.map Prod.fst → statsSet m k v = m ++ [(k, v)] := by
  intro m
  induction m with
  | nil => intro k v _; rfl
  | cons e rest ih =>
    intro k v h
    simp only [List.map_cons, List.mem_cons] at h
    push_neg at h
    have hne : e.1 ≠ k := fun hh => h.1 hh.symm
    simp only [statsSet, if_neg hne, List.cons_append, List.cons.injEq, true_and]
    exact ih h.2

theorem restore_stats_fold :
    ∀ (m acc : List (String × ReasonStat)),
      (m.map Prod.fst).Nodup →
      (∀ e ∈ m, e.1 ∉ acc.map Prod.fst) →
      m.foldl (fun m2 e => statsSet m2 e.1 { count := e.2.count, itemIds := ssetOfList e.2.itemIds }) acc =
        acc ++ m.map (fun e => (e.1, { count := e.2.count, itemIds := ssetOfList e.2.itemIds })) := by
  intro m
  induction m with
  | nil => simp
  | cons e rest ih =>
    intro acc hnd hno
    simp only [List.map_cons, List.nodup_cons] at hnd
    have hmem : e.1 ∉ acc.map Prod.fst := hno e (by simp)
    have harg : ∀ f ∈ rest,
        f.1 ∉ (acc ++
          [(e.1, ({ count := e.2.count, itemIds := ssetOfList e.2.itemIds } : ReasonStat))]).map
            Prod.fst := by
      intro f hf
      simp only [List.map_append, List.mem_append, List.map_cons, List.map_nil,
        List.mem_singleton]
      push_neg
      refine ⟨hno f (by simp [hf]), ?_⟩
      intro hh
      exact hnd.1 (hh ▸ List.mem_map_of_mem Prod.fst hf)
    rw [List.foldl_cons, statsSet_of_not_mem_keys hmem, ih _ hnd.2 harg]
    simp

theorem restoreAgg_mkCkpt {agg : AggState} (h : AggNodup agg) (lastId : Option String) :
    restoreAgg (mkCkpt lastId agg) = agg := by
  obtain ⟨h1, h2, h3⟩ := h
  have hall : ssetOfList agg.allItemIds = agg.allItemIds := ssetOfList_eq_self h1
  have hstats :
      agg.reasonStats.foldl
        (fun m e => statsSet m e.1 { count := e.2.count, itemIds := ssetOfList e.2.itemIds })
        [] = agg.reasonStats := by
    rw [restore_stats_fold agg.reasonStats [] h2 (by simp), List.nil_append]
    have hmap : agg.reasonStats.map
        (fun e => (e.1, ({ count := e.2.count, itemIds := ssetOfList e.2.itemIds } : ReasonStat))) =
        agg.reasonStats.map id := by
      apply List.map_congr_left
      intro e he
      rw [ssetOfList_eq_self (h3 e he)]
      rfl
    rw [hmap, List.map_id]
  simp only [restoreAgg, mkCkpt, hall, hstats]

/-! ### The per-batch resolution map only depends on the row's own item -/

theorem strOr_some_ne {s d : String} (h : s ≠ "") : strOr (some s) d = s := by
  simp [strOr, h]

theorem yearMapGet_addBody (m : List (String × List String)) (iid b i : String) :
    yearMapGet (addBodyToYearMap m iid b) i =
      if i = iid then some (ssetAdd ((yearMapGet m i).getD []) b) else yearMapGet m i := by
  induction m with
  | nil =>
    by_cases hi : i = iid
    · subst hi
      simp [addBodyToYearMap, yearMapGet, List.find?_cons, ssetAdd]
    · simp [addBodyToYearMap, yearMapGet, List.find?_cons, hi,
        beq_false_of_ne (fun hh => hi hh.symm)]
  | cons e rest ih =>
    rcases e with ⟨k1, bs⟩
    by_cases hk : k1 = iid
    · subst hk
      by_cases hi : i = k1
      · subst hi
        simp [addBodyToYearMap, yearMapGet, List.find?_cons]
      · simp [addBodyToYearMap, yearMapGet, List.find?_cons, hi,
          beq_false_of_ne (fun hh => hi hh.symm)]
    · by_cases hi : i = k1
      · subst hi
        simp [addBodyToYearMap, if_neg hk, yearMapGet, List.find?_cons, hk]
      · simp only [addBodyToYearMap, if_neg hk, yearMapGet, List.find?_cons,
          beq_false_of_ne (fun hh => hi hh.symm)]
        simpa [yearMapGet] using ih

theorem yearMapGet_yearStep (itemIds : List String) (i : String) (row : ItemYearRow)
    (m₁ m₂ : List (String × List String))
    (hi : i ∈ itemIds) (h0 : "" ∉ itemIds)
    (h : yearMapGet m₁ i = yearMapGet m₂ i) :
    yearMapGet (yearStep itemIds m₁ row) i = yearMapGet (yearStep [i] m₂ row) i := by
  have hine : i ≠ "" := fun hh => h0 (hh ▸ hi)
  rcases row with ⟨ritem, rbody⟩
  cases ritem with
  | none => simpa [yearStep] using h
  | some s =>
    simp only [yearStep]
    by_cases hs1 : s ∈ itemIds
    · have hsne : s ≠ "" := fun hh => h0 (hh ▸ hs1)
      by_cases hsi : s = i
      · subst hsi
        simp only [if_pos hs1, if_pos (show s ∈ [s] from by simp)]
        by_cases hb : strOr rbody "" = ""
        · simpa [hb] using h
        · simp only [if_neg hb, strOr_some_ne hsne, yearMapGet_addBody, if_pos rfl, h]
      · have hsni : s ∉ [i] := by simp [hsi]
        have his : ¬ i = s := fun hh => hsi hh.symm
        simp only [if_pos hs1, if_neg hsni]
        by_cases hb : strOr rbody "" = ""
        · simpa [hb] using h
        · simp only [if_neg hb, strOr_some_ne hsne, yearMapGet_addBody, if_neg his]
          exact h
    · have hsi : ¬ s = i := fun hh => hs1 (hh ▸ hi)
      simpa [hs1, hsi] using h

theorem applyRowWith_congr {env : Env} {m₁ m₂ : List (String × List String)}
    {agg : AggState} {row : DocumentItemRow}
    (h : yearMapGet m₁ row.itemId = yearMapGet m₂ row.itemId) :
    applyRowWith env m₁ agg row = applyRowWith env m₂ agg row := by
  unfold applyRowWith
  rw [h]

theorem yearMapGet_buildItemYearMap {env : Env} {itemIds : List String} {i : String}
    (hi : i ∈ itemIds) (h0 : "" ∉ itemIds) :
    yearMapGet (buildItemYearMap env itemIds) i = yearMapGet (buildItemYearMap env [i]) i := by
  unfold buildItemYearMap
  suffices hgen : ∀ (rows : List ItemYearRow) m₁ m₂, yearMapGet m₁ i = yearMapGet m₂ i →
      yearMapGet (rows.foldl (yearStep itemIds) m₁) i =
        yearMapGet (rows.foldl (yearStep [i]) m₂) i by
    exact hgen env.itemYears [] [] rfl
  intro rows
  induction rows with
  | nil => exact fun m₁ m₂ h => h
  | cons r rs ih =>
    exact fun m₁ m₂ h => ih _ _ (yearMapGet_yearStep itemIds i r m₁ m₂ hi h0 h)

theorem foldl_applyRowWith_eq_applyRowG (env : Env) (itemIds : List String)
    (h0 : "" ∉ itemIds) :
    ∀ (rows : List DocumentItemRow) (agg : AggState), (∀ r ∈ rows, r.itemId ∈ itemIds) →
      rows.foldl (applyRowWith env (buildItemYearMap env itemIds)) agg =
        rows.foldl (applyRowG env) agg := by
  intro rows
  induction rows with
  | nil => intro agg _; rfl
  | cons r rs ih =>
    intro agg hmem
    rw [List.foldl_cons, List.foldl_cons,
      applyRowWith_congr (yearMapGet_buildItemYearMap (hmem r (by simp)) h0)]
    exact ih _ (fun x hx => hmem x (by simp [hx]))

theorem processBatch_agg (env : Env) (st : ScanState) (rows : List DocumentItemRow)
    (itemIds : List String) (h0 : "" ∉ itemIds) (hmem : ∀ r ∈ rows, r.itemId ∈ itemIds) :
    (processBatch env st rows itemIds).agg = rows.foldl (applyRowG env) st.agg := by
  unfold processBatch
  split
  · rename_i hempty
    rw [List.isEmpty_iff] at hempty
    subst hempty
    rfl
  · exact foldl_applyRowWith_eq_applyRowG env itemIds h0 rows st.agg hmem

theorem processBatch_fields (env : Env) (st : ScanState) (rows : List DocumentItemRow)
    (itemIds : List String) :
    (processBatch env st rows itemIds).batchRows = st.batchRows ∧
    (processBatch env st rows itemIds).batchItemIds = st.batchItemIds ∧
    (processBatch env st rows itemIds).lastProcessedId = st.lastProcessedId ∧
    (processBatch env st rows itemIds).saved = st.saved ∧
    (processBatch env st rows itemIds).batchesSinceSave = st.batchesSinceSave := by
  unfold processBatch
  split <;> simp

/-! ### Scan-loop invariants -/

theorem aggFrom_append (env : Env) (a0 : AggState) (l l' : List RawDocumentItem) :
    aggFrom env a0 (l ++ l') = (l'.map procRow).foldl (applyRowG env) (aggFrom env a0 l) := by
  simp [aggFrom, List.foldl_append]

theorem lastIdFrom_concat (l0 : Option String) (l : List RawDocumentItem)
    (r : RawDocumentItem) :
    lastIdFrom l0 (l ++ [r]) = some (procRow r).documentItemId := by
  simp [lastIdFrom, List.getLast?_concat]

theorem ssetOfList_concat (l : List String) (x : String) :
    ssetOfList (l ++ [x]) = ssetAdd (ssetOfList l) x := by
  simp [ssetOfList, List.foldl_append]

theorem procRow_itemId_ne (r : RawDocumentItem) : (procRow r).itemId ≠ "" := by
  show strOr r.itemId "未知" ≠ ""
  cases r.itemId with
  | none => decide
  | some s =>
    simp only [strOr]
    by_cases h : s = ""
    · rw [if_pos h]; decide
    · rw [if_neg h]; exact h

theorem not_mem_empty_batchIds (rows : List DocumentItemRow)
    (h : ∀ x ∈ rows, x.itemId ≠ "") :
    "" ∉ ssetOfList (rows.map (fun x => x.itemId)) := by
  rw [mem_ssetOfList]
  intro hmem
  obtain ⟨x, hx, hid⟩ := List.mem_map.mp hmem
  exact h x hx hid

theorem mem_batchIds_of_mem {rows : List DocumentItemRow} {x : DocumentItemRow}
    (h : x ∈ rows) : x.itemId ∈ ssetOfList (rows.map (fun y => y.itemId)) := by
  rw [mem_ssetOfList]
  exact List.mem_map_of_mem _ h

theorem processBatch_batches_ne (env : Env) (st : ScanState) (rows : List DocumentItemRow)
    (ids : List String) (h : rows ≠ []) :
    (processBatch env st rows ids).batches = st.batches ++ [(rows, ids)] := by
  unfold processBatch
  rw [if_neg (fun hh => h (List.isEmpty_iff.mp hh))]

theorem flushAndSave_agg (cfg : ScanCfg) (st : ScanState) :
    (flushAndSave cfg st).agg =
      (processBatch cfg.env st st.batchRows st.batchItemIds).agg := by
  simp only [flushAndSave]
  split <;> rfl

theorem flushAndSave_batchRows (cfg : ScanCfg) (st : ScanState) :
    (flushAndSave cfg st).batchRows = [] := by
  simp only [flushAndSave]
  split <;> rfl

theorem flushAndSave_batchItemIds (cfg : ScanCfg) (st : ScanState) :
    (flushAndSave cfg st).batchItemIds = [] := by
  simp only [flushAndSave]
  split <;> rfl

theorem flushAndSave_lastProcessedId (cfg : ScanCfg) (st : ScanState) :
    (flushAndSave cfg st).lastProcessedId = st.lastProcessedId := by
  simp only [flushAndSave]
  split <;> simp [(processBatch_fields cfg.env st st.batchRows st.batchItemIds).2.2.1]

theorem flushAndSave_batches (cfg : ScanCfg) (st : ScanState) :
    (flushAndSave cfg st).batches =
      (processBatch cfg.env st st.batchRows st.batchItemIds).batches := by
  simp only [flushAndSave]
  split <;> rfl

theorem flushAndSave_saved (cfg : ScanCfg) (st : ScanState) :
    (flushAndSave cfg st).saved =
      st.saved ++
        (if cfg.saveInterval ≤ st.batchesSinceSave + 1 then
          [mkCkpt st.lastProcessedId (processBatch cfg.env st st.batchRows st.batchItemIds).agg]
        else []) := by
  have hf := processBatch_fields cfg.env st st.batchRows st.batchItemIds
  simp only [flushAndSave]
  split
  · rename_i hcond
    rw [hf.2.2.2.2] at hcond
    simp only [hf.2.2.2.1, hf.2.2.1, if_pos hcond]
  · rename_i hcond
    rw [hf.2.2.2.2] at hcond
    simp only [hf.2.2.2.1, if_neg hcond, List.append_nil]

theorem push_step_spec (cfg : ScanCfg) (a0 : AggState) (l0 : Option String)
    (C B : List RawDocumentItem) (st : ScanState) (r : RawDocumentItem)
    (hS : StateSpec cfg.env cfg.batchSize a0 l0 C B st)
    (hlt : ¬ cfg.batchSize ≤ (pushRow st r).batchItemIds.length) :
    StateSpec cfg.env cfg.batchSize a0 l0 C (B ++ [r]) (pushRow st r) := by
  obtain ⟨hs1, hs2, hs3, hs4, hs5⟩ := hS
  refine ⟨hs1, ?_, ?_, Nat.lt_of_not_le hlt, ?_⟩
  · show st.batchRows ++ [procRow r] = (B ++ [r]).map procRow
    rw [hs2]
    simp
  · show ssetAdd st.batchItemIds (procRow r).itemId =
      ssetOfList ((st.batchRows ++ [procRow r]).map (fun x => x.itemId))
    rw [hs3]
    simp [ssetOfList_concat]
  · show some (procRow r).documentItemId = lastIdFrom l0 (C ++ (B ++ [r]))
    rw [show C ++ (B ++ [r]) = (C ++ B) ++ [r] from by simp, lastIdFrom_concat]

theorem flush_step_spec (cfg : ScanCfg) (hbs : 0 < cfg.batchSize) (a0 : AggState)
    (l0 : Option String) (C B : List RawDocumentItem) (st : ScanState) (r : RawDocumentItem)
    (hS : StateSpec cfg.env cfg.batchSize a0 l0 C B st)
    (hV : SavedSpec cfg.env a0 l0 C st)
    (hB : BatchesSpec cfg.batchSize st)
    (hge : cfg.batchSize ≤ (pushRow st r).batchItemIds.length) :
    StateSpec cfg.env cfg.batchSize a0 l0 (C ++ (B ++ [r])) []
      (flushAndSave cfg (pushRow st r)) ∧
    SavedSpec cfg.env a0 l0 (C ++ (B ++ [r])) (flushAndSave cfg (pushRow st r)) ∧
    BatchesSpec cfg.batchSize (flushAndSave cfg (pushRow st r)) := by
  obtain ⟨hs1, hs2, hs3, hs4, hs5⟩ := hS
  set st1 := pushRow st r with hst1
  have h1rows : st1.batchRows = (B ++ [r]).map procRow := by
    rw [hst1]
    show st.batchRows ++ [procRow r] = _
    rw [hs2]
    simp
  have h1ids : st1.batchItemIds = ssetOfList (st1.batchRows.map (fun x => x.itemId)) := by
    rw [hst1]
    show ssetAdd st.batchItemIds (procRow r).itemId =
      ssetOfList ((st.batchRows ++ [procRow r]).map (fun x => x.itemId))
    rw [hs3]
    simp [ssetOfList_concat]
  have h1last : st1.lastProcessedId = some (procRow r).documentItemId := rfl
  have h1agg : st1.agg = aggFrom cfg.env a0 C := hs1
  have h1ne : st1.batchRows ≠ [] := by rw [h1rows]; simp
  have hidne : ∀ x ∈ st1.batchRows, x.itemId ≠ "" := by
    rw [h1rows]
    intro x hx
    obtain ⟨rr, _, rfl⟩ := List.mem_map.mp hx
    exact procRow_itemId_ne rr
  have h0 : "" ∉ st1.batchItemIds := by
    rw [h1ids]
    exact not_mem_empty_batchIds _ hidne
  have hmem : ∀ x ∈ st1.batchRows, x.itemId ∈ st1.batchItemIds := by
    rw [h1ids]
    intro x hx
    exact mem_batchIds_of_mem hx
  have hpagg : (processBatch cfg.env st1 st1.batchRows st1.batchItemIds).agg =
      aggFrom cfg.env a0 (C ++ (B ++ [r])) := by
    rw [processBatch_agg cfg.env st1 st1.batchRows st1.batchItemIds h0 hmem, h1agg, h1rows,
      aggFrom_append]
  have hlastC : lastIdFrom l0 (C ++ (B ++ [r])) = some (procRow r).documentItemId := by
    rw [show C ++ (B ++ [r]) = (C ++ B) ++ [r] from by simp, lastIdFrom_concat]
  refine ⟨⟨?_, flushAndSave_batchRows cfg st1, ?_, ?_, ?_⟩, ?_, ?_⟩
  · rw [flushAndSave_agg, hpagg]
  · rw [flushAndSave_batchItemIds, flushAndSave_batchRows]
    rfl
  · rw [flushAndSave_batchItemIds]
    exact hbs
  · rw [flushAndSave_lastProcessedId, h1last, List.append_nil, hlastC]
  · intro cp hcp
    rw [flushAndSave_saved] at hcp
    simp only [List.mem_append] at hcp
    rcases hcp with hold | hnew
    · obtain ⟨P, S, hCPS, hPne, hcpe⟩ := hV cp hold
      exact ⟨P, S ++ (B ++ [r]), by rw [hCPS]; simp, hPne, hcpe⟩
    · by_cases hcond : cfg.saveInterval ≤ st1.batchesSinceSave + 1
      · rw [if_pos hcond] at hnew
        simp only [List.mem_singleton] at hnew
        subst hnew
        refine ⟨C ++ (B ++ [r]), [], by simp, by simp, ?_⟩
        rw [h1last, hlastC, hpagg]
      · rw [if_neg hcond] at hnew
        simp at hnew
  · intro b hb
    rw [flushAndSave_batches, processBatch_batches_ne cfg.env st1 _ _ h1ne] at hb
    simp only [List.mem_append, List.mem_singleton] at hb
    rcases hb with hold | rfl
    · exact hB b hold
    · refine ⟨h1ids, ?_, ?_⟩
      · have hle : st1.batchItemIds.length ≤ st.batchItemIds.length + 1 := by
          rw [hst1]
          exact length_ssetAdd_le _ _
        show st1.batchItemIds.length ≤ cfg.batchSize
        omega
      · have hdrop : st1.batchRows.dropLast = st.batchRows := by
          rw [hst1]
          show (st.batchRows ++ [procRow r]).dropLast = _
          exact List.dropLast_concat
        show (ssetOfList (st1.batchRows.dropLast.map (fun x => x.itemId))).length < cfg.batchSize
        rw [hdrop, ← hs3]
        exact hs4

theorem scanRows_master (cfg : ScanCfg) (hbs : 0 < cfg.batchSize) (a0 : AggState)
    (l0 : Option String) :
    ∀ (rows C B : List RawDocumentItem) (st : ScanState),
      StateSpec cfg.env cfg.batchSize a0 l0 C B st →
      SavedSpec cfg.env a0 l0 C st →
      BatchesSpec cfg.batchSize st →
      ∃ C2 B2,
        C ++ B ++ rows = C2 ++ B2 ++ (scanRows cfg rows st).2 ∧
        StateSpec cfg.env cfg.batchSize a0 l0 C2 B2 (scanRows cfg rows st).1 ∧
        SavedSpec cfg.env a0 l0 C2 (scanRows cfg rows st).1 ∧
        BatchesSpec cfg.batchSize (scanRows cfg rows st).1 ∧
        ((scanRows cfg rows st).2 ≠ [] → ∃ n, cfg.maxBatches = some n) ∧
        ∃ D, C2 = C ++ D := by
  intro rows
  induction rows with
  | nil =>
    intro C B st hS hV hB
    exact ⟨C, B, by simp [scanRows], hS, hV, hB, by simp [scanRows], [], by simp⟩
  | cons r rs ih =>
    intro C B st hS hV hB
    by_cases hflush : cfg.batchSize ≤ (pushRow st r).batchItemIds.length
    case neg =>
      have habs : absorbRow cfg st r = (pushRow st r, false) := by
        simp [absorbRow, hflush]
      have hscan : scanRows cfg (r :: rs) st = scanRows cfg rs (pushRow st r) := by
        simp [scanRows, habs]
      have hS' := push_step_spec cfg a0 l0 C B st r hS hflush
      obtain ⟨C2, B2, hsplit, hSS, hVV, hBB, hmax, D, hD⟩ :=
        ih C (B ++ [r]) (pushRow st r) hS' hV hB
      rw [hscan]
      refine ⟨C2, B2, ?_, hSS, hVV, hBB, hmax, D, hD⟩
      rw [show C ++ B ++ (r :: rs) = C ++ (B ++ [r]) ++ rs from by simp]
      exact hsplit
    case pos =>
      obtain ⟨hS2, hV2, hB2⟩ := flush_step_spec cfg hbs a0 l0 C B st r hS hV hB hflush
      cases hmb : cfg.maxBatches with
      | none =>
        have habs2 : absorbRow cfg st r = (flushAndSave cfg (pushRow st r), false) := by
          simp [absorbRow, hflush, hmb]
        have hscan : scanRows cfg (r :: rs) st =
            scanRows cfg rs (flushAndSave cfg (pushRow st r)) := by
          simp [scanRows, habs2]
        obtain ⟨C2, B2, hsplit, hSS, hVV, hBB, hmax, D, hD⟩ :=
          ih (C ++ (B ++ [r])) [] (flushAndSave cfg (pushRow st r)) hS2 hV2 hB2
        rw [hscan]
        refine ⟨C2, B2, ?_, hSS, hVV, hBB, ?_, (B ++ [r]) ++ D, ?_⟩
        · rw [show C ++ B ++ (r :: rs) = (C ++ (B ++ [r])) ++ [] ++ rs from by simp]
          exact hsplit
        · intro hne
          obtain ⟨n, hn⟩ := hmax hne
          rw [hmb] at hn
          exact ⟨n, hn⟩
        · rw [hD]
          simp
      | some n =>
        have habs0 : absorbRow cfg st r =
            (flushAndSave cfg (pushRow st r),
              decide (n ≤ (flushAndSave cfg (pushRow st r)).batchIndex)) := by
          simp [absorbRow, hflush, hmb]
        cases hstop : decide (n ≤ (flushAndSave cfg (pushRow st r)).batchIndex) with
        | true =>
          have habs2 : absorbRow cfg st r = (flushAndSave cfg (pushRow st r), true) := by
            rw [habs0, hstop]
          have hscan : scanRows cfg (r :: rs) st = (flushAndSave cfg (pushRow st r), rs) := by
            simp [scanRows, habs2]
          rw [hscan]
          refine ⟨C ++ (B ++ [r]), [], by simp, hS2, hV2, hB2, fun _ => ⟨n, rfl⟩,
            B ++ [r], rfl⟩
        | false =>
          have habs2 : absorbRow cfg st r = (flushAndSave cfg (pushRow st r), false) := by
            rw [habs0, hstop]
          have hscan : scanRows cfg (r :: rs) st =
              scanRows cfg rs (flushAndSave cfg (pushRow st r)) := by
            simp [scanRows, habs2]
          obtain ⟨C2, B2, hsplit, hSS, hVV, hBB, hmax, D, hD⟩ :=
            ih (C ++ (B ++ [r])) [] (flushAndSave cfg (pushRow st r)) hS2 hV2 hB2
          rw [hscan]
          refine ⟨C2, B2, ?_, hSS, hVV, hBB, fun _ => ⟨n, rfl⟩, (B ++ [r]) ++ D, ?_⟩
          · rw [show C ++ B ++ (r :: rs) = (C ++ (B ++ [r])) ++ [] ++ rs from by simp]
            exact hsplit
          · rw [hD]
            simp

theorem initState_stateSpec (env : Env) (bs : Nat) (hbs : 0 < bs) (cp : Option Checkpoint) :
    StateSpec env bs (initState cp).agg (initState cp).lastProcessedId [] [] (initState cp) :=
  ⟨rfl, rfl, rfl, hbs, rfl⟩

theorem initState_savedSpec (env : Env) (a0 : AggState) (l0 : Option String)
    (cp : Option Checkpoint) : SavedSpec env a0 l0 [] (initState cp) := by
  intro ck hck
  simp [initState] at hck

theorem initState_batchesSpec (bs : Nat) (cp : Option Checkpoint) :
    BatchesSpec bs (initState cp) := by
  intro b hb
  simp [initState] at hb

theorem runScan_char (cfg : ScanCfg) (hbs : 0 < cfg.batchSize) (cp0 : Option Checkpoint)
    (rows : List RawDocumentItem) :
    ∃ T rest, rows = T ++ rest ∧
      (rest ≠ [] → ∃ n, cfg.maxBatches = some n) ∧
      (runScan cfg rows (initState cp0)).agg =
        aggFrom cfg.env (initState cp0).agg T ∧
      (runScan cfg rows (initState cp0)).lastProcessedId =
        lastIdFrom (initState cp0).lastProcessedId T ∧
      (∀ ck ∈ (runScan cfg rows (initState cp0)).saved,
        ∃ P S, T = P ++ S ∧
          ck = mkCkpt (lastIdFrom (initState cp0).lastProcessedId P)
            (aggFrom cfg.env (initState cp0).agg P)) ∧
      BatchesSpec cfg.batchSize (runScan cfg rows (initState cp0)) := by
  obtain ⟨C2, B2, hsplit, hSS, hVV, hBB, hmax, D, hD⟩ :=
    scanRows_master cfg hbs (initState cp0).agg (initState cp0).lastProcessedId rows [] []
      (initState cp0) (initState_stateSpec cfg.env cfg.batchSize hbs cp0)
      (initState_savedSpec cfg.env _ _ cp0) (initState_batchesSpec cfg.batchSize cp0)
  obtain ⟨hs1, hs2, hs3, hs4, hs5⟩ := hSS
  set st := (scanRows cfg rows (initState cp0)).1 with hstdef
  have hidne : ∀ x ∈ st.batchRows, x.itemId ≠ "" := by
    rw [hs2]
    intro x hx
    obtain ⟨rr, _, rfl⟩ := List.mem_map.mp hx
    exact procRow_itemId_ne rr
  have h0 : "" ∉ st.batchItemIds := by
    rw [hs3]
    exact not_mem_empty_batchIds _ hidne
  have hmem : ∀ x ∈ st.batchRows, x.itemId ∈ st.batchItemIds := by
    rw [hs3]
    intro x hx
    exact mem_batchIds_of_mem hx
  have hpagg : (processBatch cfg.env st st.batchRows st.batchItemIds).agg =
      aggFrom cfg.env (initState cp0).agg (C2 ++ B2) := by
    rw [processBatch_agg cfg.env st st.batchRows st.batchItemIds h0 hmem, hs1, hs2,
      aggFrom_append]
  have hpf := processBatch_fields cfg.env st st.batchRows st.batchItemIds
  refine ⟨C2 ++ B2, (scanRows cfg rows (initState cp0)).2, by simpa using hsplit, hmax,
    ?_, ?_, ?_, ?_⟩
  · show (processBatch cfg.env st st.batchRows st.batchItemIds).agg = _
    exact hpagg
  · show (processBatch cfg.env st st.batchRows st.batchItemIds).lastProcessedId = _
    rw [hpf.2.2.1, hs5]
  · intro ck hck
    have hck2 : ck ∈ (processBatch cfg.env st st.batchRows st.batchItemIds).saved ++
        [mkCkpt (processBatch cfg.env st st.batchRows st.batchItemIds).lastProcessedId
          (processBatch cfg.env st st.batchRows st.batchItemIds).agg] := hck
    rw [hpf.2.2.2.1, hpf.2.2.1] at hck2
    simp only [List.mem_append, List.mem_singleton] at hck2
    rcases hck2 with hold | rfl
    · obtain ⟨P, S, hC2, _, hcke⟩ := hVV ck hold
      exact ⟨P, S ++ B2, by rw [hC2]; simp, hcke⟩
    · exact ⟨C2 ++ B2, [], by simp, by rw [hs5, hpagg]⟩
  · intro b hb
    have hb2 : b ∈ (processBatch cfg.env st st.batchRows st.batchItemIds).batches := hb
    by_cases hne : st.batchRows = []
    · rw [show processBatch cfg.env st st.batchRows st.batchItemIds = st from by
        rw [hne]; rfl] at hb2
      exact hBB b hb2
    · rw [processBatch_batches_ne cfg.env st _ _ hne] at hb2
      simp only [List.mem_append, List.mem_singleton] at hb2
      rcases hb2 with hold | rfl
      · exact hBB b hold
      · have hlt : (ssetOfList (st.batchRows.map (fun x => x.itemId))).length <
            cfg.batchSize := by
          rw [← hs3]
          exact hs4
        refine ⟨hs3, ?_, ?_⟩
        · show st.batchItemIds.length ≤ cfg.batchSize
          exact le_of_lt hs4
        · show (ssetOfList (st.batchRows.dropLast.map (fun x => x.itemId))).length <
            cfg.batchSize
          rw [List.map_dropLast]
          exact lt_of_le_of_lt (length_ssetOfList_dropLast_le _) hlt

theorem scanRows_stop (cfg : ScanCfg) :
    ∀ (rows : List RawDocumentItem) (st : ScanState), (scanRows cfg rows st).2 ≠ [] →
      ((scanRows cfg rows st).1).batchRows = [] ∧
      ((scanRows cfg rows st).1).batchItemIds = [] ∧
      ∃ n, cfg.maxBatches = some n ∧ n ≤ ((scanRows cfg rows st).1).batchIndex := by
  intro rows
  induction rows with
  | nil =>
    intro st h
    simp [scanRows] at h
  | cons r rs ih =>
    intro st h
    by_cases hflush : cfg.batchSize ≤ (pushRow st r).batchItemIds.length
    · cases hmb : cfg.maxBatches with
      | none =>
        have habs2 : absorbRow cfg st r = (flushAndSave cfg (pushRow st r), false) := by
          simp [absorbRow, hflush, hmb]
        have hscan : scanRows cfg (r :: rs) st =
            scanRows cfg rs (flushAndSave cfg (pushRow st r)) := by
          simp [scanRows, habs2]
        rw [hscan] at h ⊢
        obtain ⟨ha, hb2, n, hn, hle⟩ := ih _ h
        rw [hmb] at hn
        exact ⟨ha, hb2, n, hn, hle⟩
      | some n =>
        have habs0 : absorbRow cfg st r =
            (flushAndSave cfg (pushRow st r),
              decide (n ≤ (flushAndSave cfg (pushRow st r)).batchIndex)) := by
          simp [absorbRow, hflush, hmb]
        cases hstop : decide (n ≤ (flushAndSave cfg (pushRow st r)).batchIndex) with
        | true =>
          have habs2 : absorbRow cfg st r = (flushAndSave cfg (pushRow st r), true) := by
            rw [habs0, hstop]
          have hscan : scanRows cfg (r :: rs) st = (flushAndSave cfg (pushRow st r), rs) := by
            simp [scanRows, habs2]
          rw [hscan]
          exact ⟨flushAndSave_batchRows cfg (pushRow st r),
            flushAndSave_batchItemIds cfg (pushRow st r), n, rfl, of_decide_eq_true hstop⟩
        | false =>
          have habs2 : absorbRow cfg st r = (flushAndSave cfg (pushRow st r), false) := by
            rw [habs0, hstop]
          have hscan : scanRows cfg (r :: rs) st =
              scanRows cfg rs (flushAndSave cfg (pushRow st r)) := by
            simp [scanRows, habs2]
          rw [hscan] at h ⊢
          obtain ⟨ha, hb2, n2, hn, hle⟩ := ih _ h
          rw [hmb] at hn
          exact ⟨ha, hb2, n2, hn, hle⟩
    · have habs : absorbRow cfg st r = (pushRow st r, false) := by
        simp [absorbRow, hflush]
      have hscan : scanRows cfg (r :: rs) st = scanRows cfg rs (pushRow st r) := by
        simp [scanRows, habs]
      rw [hscan] at h ⊢
      exact ih _ h

theorem runScan_final_save (cfg : ScanCfg) (rows : List RawDocumentItem) (st0 : ScanState) :
    (runScan cfg rows st0).saved.getLast? =
      some (mkCkpt (runScan cfg rows st0).lastProcessedId (runScan cfg rows st0).agg) := by
  simp only [runScan]
  rw [List.getLast?_concat]

/-! ### Aggregate-state invariants along a run -/

theorem AggNodup_emptyAgg : AggNodup emptyAgg := by
  refine ⟨List.nodup_nil, List.nodup_nil, ?_⟩
  intro e he
  simp [emptyAgg] at he

theorem AggNodup_applyRowWith (env : Env) (m : List (String × List String)) (agg : AggState)
    (row : DocumentItemRow) (h : AggNodup agg) : AggNodup (applyRowWith env m agg row) := by
  obtain ⟨h1, h2, h3⟩ := h
  simp only [applyRowWith]
  by_cases hskip : (env.documentRepoMap row.documentId).getD "" = "" ∨
      (env.repoBodyMap ((env.documentRepoMap row.documentId).getD "")).getD "" = ""
  · rw [if_pos hskip]
    exact ⟨h1, h2, h3⟩
  · rw [if_neg hskip]
    split
    · exact ⟨h1, h2, h3⟩
    · split
      · exact ⟨h1, h2, h3⟩
      · split
        · exact ⟨h1, h2, h3⟩
        · refine ⟨ssetAdd_nodup h1, keysNodup_statsSet h2, ?_⟩
          intro e he
          rw [mem_statsSet_iff h2] at he
          rcases he with ⟨hmem, _⟩ | rfl
          · exact h3 e hmem
          · show (ssetAdd ((statsGet agg.reasonStats mismatchReasonCode).getD
              { count := 0, itemIds := [] }).itemIds row.itemId).Nodup
            cases hst : statsGet agg.reasonStats mismatchReasonCode with
            | none =>
              simp only [Option.getD_none]
              exact ssetAdd_nodup List.nodup_nil
            | some s =>
              simp only [Option.getD_some]
              exact ssetAdd_nodup (h3 (mismatchReasonCode, s) (statsGet_eq_some_mem hst))

theorem AggNodup_foldl (env : Env) :
    ∀ (l : List DocumentItemRow) (agg : AggState), AggNodup agg →
      AggNodup (l.foldl (applyRowG env) agg) := by
  intro l
  induction l with
  | nil => exact fun agg h => h
  | cons r rs ih =>
    intro agg h
    exact ih _ (AggNodup_applyRowWith env _ agg r h)

theorem AggNodup_aggFrom (env : Env) (a0 : AggState) (l : List RawDocumentItem)
    (h : AggNodup a0) : AggNodup (aggFrom env a0 l) :=
  AggNodup_foldl env _ a0 h

theorem ckptAgg_mkCkpt (lastId : Option String) (agg : AggState) :
    ckptAgg (mkCkpt lastId agg) = agg := rfl

theorem foldl_applyRowWith_rel (env : Env) (R : AggState → AggState → Prop)
    (hrefl : ∀ a, R a a)
    (htrans : ∀ a b c, R a b → R b c → R a c)
    (hstep : ∀ m agg row, R agg (applyRowWith env m agg row)) :
    ∀ (l : List DocumentItemRow) (m : List (String × List String)) (agg : AggState),
      R agg (l.foldl (applyRowWith env m) agg) := by
  intro l
  induction l with
  | nil => exact fun m agg => hrefl agg
  | cons r rs ih =>
    intro m agg
    exact htrans _ _ _ (hstep m agg r) (ih m _)

theorem processBatch_rel (env : Env) (R : AggState → AggState → Prop)
    (hrefl : ∀ a, R a a)
    (htrans : ∀ a b c, R a b → R b c → R a c)
    (hstep : ∀ m agg row, R agg (applyRowWith env m agg row))
    (st : ScanState) (rows : List DocumentItemRow) (ids : List String) :
    R st.agg (processBatch env st rows ids).agg := by
  unfold processBatch
  split
  · exact hrefl _
  · exact foldl_applyRowWith_rel env R hrefl htrans hstep rows _ st.agg

theorem scanRows_rel (cfg : ScanCfg) (R : AggState → AggState → Prop)
    (hrefl : ∀ a, R a a)
    (htrans : ∀ a b c, R a b → R b c → R a c)
    (hstep : ∀ m agg row, R agg (applyRowWith cfg.env m agg row)) :
    ∀ (rows : List RawDocumentItem) (st : ScanState),
      R st.agg ((scanRows cfg rows st).1).agg ∧
      (∀ ck ∈ ((scanRows cfg rows st).1).saved, ck ∈ st.saved ∨ R st.agg (ckptAgg ck)) := by
  have hfs : ∀ st1 : ScanState, R st1.agg (flushAndSave cfg st1).agg := by
    intro st1
    rw [flushAndSave_agg]
    exact processBatch_rel cfg.env R hrefl htrans hstep st1 _ _
  have hfsSaved : ∀ (st1 : ScanState) (ck : Checkpoint), ck ∈ (flushAndSave cfg st1).saved →
      ck ∈ st1.saved ∨ R st1.agg (ckptAgg ck) := by
    intro st1 ck hck
    rw [flushAndSave_saved] at hck
    simp only [List.mem_append] at hck
    rcases hck with hold | hnew
    · exact Or.inl hold
    · right
      split at hnew
      · simp only [List.mem_singleton] at hnew
        subst hnew
        rw [ckptAgg_mkCkpt]
        exact processBatch_rel cfg.env R hrefl htrans hstep st1 _ _
      · simp at hnew
  intro rows
  induction rows with
  | nil =>
    intro st
    exact ⟨hrefl _, fun ck hck => Or.inl hck⟩
  | cons r rs ih =>
    intro st
    by_cases hflush : cfg.batchSize ≤ (pushRow st r).batchItemIds.length
    · have hstep1 : R st.agg (flushAndSave cfg (pushRow st r)).agg := hfs (pushRow st r)
      have hsaved1 : ∀ ck ∈ (flushAndSave cfg (pushRow st r)).saved,
          ck ∈ st.saved ∨ R st.agg (ckptAgg ck) := hfsSaved (pushRow st r)
      cases hmb : cfg.maxBatches with
      | none =>
        have habs2 : absorbRow cfg st r = (flushAndSave cfg (pushRow st r), false) := by
          simp [absorbRow, hflush, hmb]
        have hscan : scanRows cfg (r :: rs) st =
            scanRows cfg rs (flushAndSave cfg (pushRow st r)) := by
          simp [scanRows, habs2]
        rw [hscan]
        obtain ⟨ha, hs⟩ := ih (flushAndSave cfg (pushRow st r))
        refine ⟨htrans _ _ _ hstep1 ha, ?_⟩
        intro ck hck
        rcases hs ck hck with hm | hr
        · exact hsaved1 ck hm
        · exact Or.inr (htrans _ _ _ hstep1 hr)
      | some n =>
        have habs0 : absorbRow cfg st r =
            (flushAndSave cfg (pushRow st r),
              decide (n ≤ (flushAndSave cfg (pushRow st r)).batchIndex)) := by
          simp [absorbRow, hflush, hmb]
        cases hstop : decide (n ≤ (flushAndSave cfg (pushRow st r)).batchIndex) with
        | true =>
          have habs2 : absorbRow cfg st r = (flushAndSave cfg (pushRow st r), true) := by
            rw [habs0, hstop]
          have hscan : scanRows cfg (r :: rs) st = (flushAndSave cfg (pushRow st r), rs) := by
            simp [scanRows, habs2]
          rw [hscan]
          exact ⟨hstep1, hsaved1⟩
        | false =>
          have habs2 : absorbRow cfg st r = (flushAndSave cfg (pushRow st r), false) := by
            rw [habs0, hstop]
          have hscan : scanRows cfg (r :: rs) st =
              scanRows cfg rs (flushAndSave cfg (pushRow st r)) := by
            simp [scanRows, habs2]
          rw [hscan]
          obtain ⟨ha, hs⟩ := ih (flushAndSave cfg (pushRow st r))
          refine ⟨htrans _ _ _ hstep1 ha, ?_⟩
          intro ck hck
          rcases hs ck hck with hm | hr
          · exact hsaved1 ck hm
          · exact Or.inr (htrans _ _ _ hstep1 hr)
    · have habs : absorbRow cfg st r = (pushRow st r, false) := by
        simp [absorbRow, hflush]
      have hscan : scanRows cfg (r :: rs) st = scanRows cfg rs (pushRow st r) := by
        simp [scanRows, habs]
      rw [hscan]
      exact ih (pushRow st r)

theorem runScan_rel (cfg : ScanCfg) (R : AggState → AggState → Prop)
    (hrefl : ∀ a, R a a)
    (htrans : ∀ a b c, R a b → R b c → R a c)
    (hstep : ∀ m agg row, R agg (applyRowWith cfg.env m agg row))
    (rows : List RawDocumentItem) (st0 : ScanState) :
    R st0.agg (runScan cfg rows st0).agg ∧
    (∀ ck ∈ (runScan cfg rows st0).saved, ck ∈ st0.saved ∨ R st0.agg (ckptAgg ck)) := by
  obtain ⟨hagg, hsaved⟩ := scanRows_rel cfg R hrefl htrans hstep rows st0
  have hdrain : R st0.agg
      (processBatch cfg.env ((scanRows cfg rows st0).1)
        ((scanRows cfg rows st0).1).batchRows ((scanRows cfg rows st0).1).batchItemIds).agg :=
    htrans _ _ _ hagg (processBatch_rel cfg.env R hrefl htrans hstep _ _ _)
  have hpf := processBatch_fields cfg.env ((scanRows cfg rows st0).1)
    ((scanRows cfg rows st0).1).batchRows ((scanRows cfg rows st0).1).batchItemIds
  refine ⟨hdrain, ?_⟩
  intro ck hck
  have hck2 : ck ∈ (processBatch cfg.env ((scanRows cfg rows st0).1)
      ((scanRows cfg rows st0).1).batchRows ((scanRows cfg rows st0).1).batchItemIds).saved ++
      [mkCkpt (processBatch cfg.env ((scanRows cfg rows st0).1)
          ((scanRows cfg rows st0).1).batchRows ((scanRows cfg rows st0).1).batchItemIds).lastProcessedId
        (processBatch cfg.env ((scanRows cfg rows st0).1)
          ((scanRows cfg rows st0).1).batchRows ((scanRows cfg rows st0).1).batchItemIds).agg] := hck
  rw [hpf.2.2.2.1] at hck2
  simp only [List.mem_append, List.mem_singleton] at hck2
  rcases hck2 with hold | rfl
  · exact hsaved ck hold
  · right
    rw [ckptAgg_mkCkpt]
    exact hdrain

/-! ### The primary cursor query -/

theorem matchesQuery_some (k : String) (sd ed : Option Int) (r : RawDocumentItem) :
    matchesQuery (some k) sd ed r = (strLt k r.id && matchesQuery none sd ed r) := by
  simp [matchesQuery, Bool.and_assoc]

theorem mem_documentItemQueryRows {coll : List RawDocumentItem} {lastKey : Option String}
    {sd ed : Option Int} {r : RawDocumentItem} :
    r ∈ documentItemQueryRows coll lastKey sd ed ↔
      r ∈ coll ∧ matchesQuery lastKey sd ed r = true := by
  simp [documentItemQueryRows, List.mem_insertionSort, List.mem_filter]

theorem sorted_documentItemQueryRows (coll : List RawDocumentItem) (lastKey : Option String)
    (sd ed : Option Int) :
    List.Pairwise (fun a b => strLe a.id b.id = true)
      (documentItemQueryRows coll lastKey sd ed) := by
  haveI : IsTotal RawDocumentItem (fun a b => strLe a.id b.id = true) :=
    ⟨fun a b => by
      have h := strLe_total a.id b.id
      cases hab : strLe a.id b.id with
      | true => exact Or.inl rfl
      | false =>
        right
        rw [hab] at h
        simpa using h⟩
  haveI : IsTrans RawDocumentItem (fun a b => strLe a.id b.id = true) :=
    ⟨fun a b c hab hbc => strLe_trans hab hbc⟩
  exact List.sorted_insertionSort _ _

theorem nodupIds_documentItemQueryRows (coll : List RawDocumentItem) (lastKey : Option String)
    (sd ed : Option Int) (hnodup : (coll.map (fun r => r.id)).Nodup) :
    ((documentItemQueryRows coll lastKey sd ed).map (fun r => r.id)).Nodup := by
  have hperm : (documentItemQueryRows coll lastKey sd ed).Perm
      (coll.filter (matchesQuery lastKey sd ed)) :=
    List.perm_insertionSort _ _
  have hsub : ((coll.filter (matchesQuery lastKey sd ed)).map (fun r => r.id)).Sublist
      (coll.map (fun r => r.id)) :=
    List.Sublist.map _ (List.filter_sublist coll)
  exact ((hperm.map (fun r => r.id)).nodup_iff).mpr (hsub.nodup hnodup)

theorem sortedLt_documentItemQueryRows (coll : List RawDocumentItem) (lastKey : Option String)
    (sd ed : Option Int) (hnodup : (coll.map (fun r => r.id)).Nodup) :
    List.Pairwise (fun a b => strLt a.id b.id = true)
      (documentItemQueryRows coll lastKey sd ed) := by
  have hle := sorted_documentItemQueryRows coll lastKey sd ed
  have hne : List.Pairwise (fun a b : RawDocumentItem => a.id ≠ b.id)
      (documentItemQueryRows coll lastKey sd ed) :=
    List.pairwise_map.mp (nodupIds_documentItemQueryRows coll lastKey sd ed hnodup)
  refine (hle.and hne).imp ?_
  rintro a b ⟨hab, hne2⟩
  cases hlt : strLt a.id b.id with
  | true => rfl
  | false =>
    have hba : strLt b.id a.id = false := by
      have := hab
      simp only [strLe, Bool.not_eq_true'] at this
      exact this
    exact absurd (strLt_connex hlt hba) hne2

theorem documentItemQueryRows_gt (coll : List RawDocumentItem) (k : String)
    (sd ed : Option Int) (hnodup : (coll.map (fun r => r.id)).Nodup) :
    documentItemQueryRows coll (some k) sd ed =
      (documentItemQueryRows coll none sd ed).filter (fun r => strLt k r.id) := by
  haveI : IsAntisymm RawDocumentItem (fun a b => strLt a.id b.id = true) :=
    ⟨fun a b hab hba => (strLt_asymm hab hba).elim⟩
  have hpermL : (documentItemQueryRows coll (some k) sd ed).Perm
      (coll.filter (matchesQuery (some k) sd ed)) := List.perm_insertionSort _ _
  have hpermR : ((documentItemQueryRows coll none sd ed).filter (fun r => strLt k r.id)).Perm
      ((coll.filter (matchesQuery none sd ed)).filter (fun r => strLt k r.id)) :=
    (List.perm_insertionSort _ _).filter _
  have hinner : coll.filter (matchesQuery (some k) sd ed) =
      (coll.filter (matchesQuery none sd ed)).filter (fun r => strLt k r.id) := by
    rw [List.filter_filter]
    apply List.filter_congr
    intro r _
    rw [matchesQuery_some]
  have hperm : (documentItemQueryRows coll (some k) sd ed).Perm
      ((documentItemQueryRows coll none sd ed).filter (fun r => strLt k r.id)) := by
    refine hpermL.trans (hinner ▸ hpermR.symm)
  exact List.eq_of_perm_of_sorted hperm
    (sortedLt_documentItemQueryRows coll (some k) sd ed hnodup)
    ((sortedLt_documentItemQueryRows coll none sd ed hnodup).sublist
      (List.filter_sublist _))

theorem filter_gt_suffix (P S : List RawDocumentItem) (lastP : RawDocumentItem)
    (hP : P.getLast? = some lastP)
    (hsort : List.Pairwise (fun a b => strLt a.id b.id = true) (P ++ S)) :
    (P ++ S).filter (fun r => strLt lastP.id r.id) = S := by
  obtain ⟨P', rfl⟩ := List.getLast?_eq_some_iff.mp hP
  rw [List.filter_append]
  have hparts := List.pairwise_append.mp hsort
  have h1 : (P' ++ [lastP]).filter (fun r => strLt lastP.id r.id) = [] := by
    rw [List.filter_eq_nil_iff]
    intro a ha
    rcases List.mem_append.mp ha with ha' | ha''
    · have hlt : strLt a.id lastP.id = true :=
        (List.pairwise_append.mp hparts.1).2.2 a ha' lastP (by simp)
      simp only [Bool.not_eq_true]
      cases hcon : strLt lastP.id a.id with
      | false => rfl
      | true => exact (strLt_asymm hlt hcon).elim
    · simp only [List.mem_singleton] at ha''
      subst ha''
      simp [strLt_irrefl]
  have h2 : S.filter (fun r => strLt lastP.id r.id) = S := by
    rw [List.filter_eq_self]
    intro a ha
    exact hparts.2.2 lastP (by simp) a ha
  rw [h1, h2, List.nil_append]

/-! ### Resume equivalence -/

theorem resume_agg_eq (cfg : ScanCfg) (hbs : 0 < cfg.batchSize) (hmb : cfg.maxBatches = none)
    (coll : List RawDocumentItem) (sd ed : Option Int)
    (hids : ∀ r ∈ coll, r.id ≠ "")
    (hnodup : (coll.map (fun r => r.id)).Nodup)
    (cp : Checkpoint)
    (hcp : cp ∈ (runScan cfg (documentItemQueryRows coll none sd ed) (initState none)).saved) :
    (runScan cfg (documentItemQueryRows coll (lastKeyOf (some cp)) sd ed)
        (initState (some cp))).agg =
      (runScan cfg (documentItemQueryRows coll none sd ed) (initState none)).agg := by
  obtain ⟨T, rest, hTr, hmax, hagg, _, hsaved, _⟩ :=
    runScan_char cfg hbs none (documentItemQueryRows coll none sd ed)
  have hrest : rest = [] := by
    by_contra hne
    obtain ⟨n, hn⟩ := hmax hne
    rw [hmb] at hn
    exact absurd hn (by simp)
  rw [hrest, List.append_nil] at hTr
  obtain ⟨P, S, hPS, hcpeq0⟩ := hsaved cp hcp
  have hcpeq : cp = mkCkpt (lastIdFrom none P) (aggFrom cfg.env emptyAgg P) := hcpeq0
  have hagg1 : (runScan cfg (documentItemQueryRows coll none sd ed) (initState none)).agg =
      aggFrom cfg.env emptyAgg T := hagg
  have hnodupAgg : AggNodup (aggFrom cfg.env emptyAgg P) :=
    AggNodup_aggFrom _ _ _ AggNodup_emptyAgg
  have hrestore : restoreAgg cp = aggFrom cfg.env emptyAgg P := by
    rw [hcpeq]
    exact restoreAgg_mkCkpt hnodupAgg _
  have hresumeRows : documentItemQueryRows coll (lastKeyOf (some cp)) sd ed = S := by
    rcases List.eq_nil_or_concat P with rfl | ⟨P2, lastP, rfl⟩
    · have hkey : lastKeyOf (some cp) = none := by
        rw [hcpeq]
        rfl
      rw [hkey, hTr, hPS]
      simp
    · rw [List.concat_eq_append] at hPS hcpeq
      have hlastT : lastP ∈ T := by
        rw [hPS]
        simp
      have hlastmem : lastP ∈ coll := by
        rw [← hTr] at hlastT
        exact (mem_documentItemQueryRows.mp hlastT).1
      have hlastid : lastP.id ≠ "" := hids lastP hlastmem
      have hlidF : lastIdFrom none (P2 ++ [lastP]) = some lastP.id := by
        rw [lastIdFrom_concat]
        show some (strOr (some lastP.id) "未知") = some lastP.id
        rw [strOr_some_ne hlastid]
      have hkey : lastKeyOf (some cp) = some lastP.id := by
        rw [hcpeq]
        simp [lastKeyOf, mkCkpt, hlidF, hlastid]
      rw [hkey, documentItemQueryRows_gt coll lastP.id sd ed hnodup, hTr, hPS]
      have hsort : List.Pairwise (fun a b => strLt a.id b.id = true) ((P2 ++ [lastP]) ++ S) := by
        have hs := sortedLt_documentItemQueryRows coll none sd ed hnodup
        rw [hTr, hPS] at hs
        exact hs
      exact filter_gt_suffix (P2 ++ [lastP]) S lastP (List.getLast?_concat _) hsort
  obtain ⟨T2, rest2, hTr2, hmax2, hagg2, _, _, _⟩ :=
    runScan_char cfg hbs (some cp) (documentItemQueryRows coll (lastKeyOf (some cp)) sd ed)
  have hrest2 : rest2 = [] := by
    by_contra hne
    obtain ⟨n, hn⟩ := hmax2 hne
    rw [hmb] at hn
    exact absurd hn (by simp)
  rw [hrest2, List.append_nil] at hTr2
  have hT2 : T2 = S := by
    rw [← hTr2, hresumeRows]
  have hagg2' : (runScan cfg (documentItemQueryRows coll (lastKeyOf (some cp)) sd ed)
      (initState (some cp))).agg = aggFrom cfg.env (restoreAgg cp) T2 := hagg2
  rw [hagg2', hagg1, hrestore, hT2, hPS, aggFrom_append]
  rfl

/-! ### The implicit aggregate-consistency invariant -/

theorem AggInv_emptyAgg : AggInv emptyAgg := by
  refine ⟨rfl, ?_, ?_⟩
  · intro x hx
    simp [emptyAgg] at hx
  · intro e he
    simp [emptyAgg] at he

theorem statsGet_of_mem_nodup :
    ∀ {m : List (String × ReasonStat)} {e : String × ReasonStat},
      (m.map Prod.fst).Nodup → e ∈ m → statsGet m e.1 = some e.2 := by
  intro m
  induction m with
  | nil => intro e _ he; simp at he
  | cons f rest ih =>
    intro e hnd he
    simp only [List.map_cons, List.nodup_cons] at hnd
    rcases List.mem_cons.mp he with rfl | hmem
    · simp [statsGet, List.find?_cons]
    · have hne : f.1 ≠ e.1 := by
        intro hh
        exact hnd.1 (hh ▸ List.mem_map_of_mem Prod.fst hmem)
      simp only [statsGet, List.find?_cons, beq_false_of_ne hne]
      simpa [statsGet] using ih hnd.2 hmem

theorem AggInv_applyRowWith (env : Env) (m : List (String × List String)) (agg : AggState)
    (row : DocumentItemRow) (h : AggInv agg) (hnd : AggNodup agg) :
    AggInv (applyRowWith env m agg row) := by
  obtain ⟨h1, h2, h3⟩ := h
  obtain ⟨_, hk, hitems⟩ := hnd
  simp only [applyRowWith]
  by_cases hskip : (env.documentRepoMap row.documentId).getD "" = "" ∨
      (env.repoBodyMap ((env.documentRepoMap row.documentId).getD "")).getD "" = ""
  · rw [if_pos hskip]
    exact ⟨h1, h2, h3⟩
  · rw [if_neg hskip]
    split
    · exact ⟨h1, h2, h3⟩
    · split
      · exact ⟨h1, h2, h3⟩
      · split
        · exact ⟨h1, h2, h3⟩
        · refine ⟨?_, ?_, ?_⟩
          · show agg.documentItemCount + 1 = sumCounts (statsSet agg.reasonStats
              mismatchReasonCode _)
            have hsum := sumCounts_statsSet agg.reasonStats mismatchReasonCode
              { count := ((statsGet agg.reasonStats mismatchReasonCode).getD
                  { count := 0, itemIds := [] }).count + 1
                itemIds := ssetAdd ((statsGet agg.reasonStats mismatchReasonCode).getD
                  { count := 0, itemIds := [] }).itemIds row.itemId }
            simp only at hsum
            omega
          · intro x hx
            rw [mem_ssetAdd] at hx
            rcases hx with hx | rfl
            · obtain ⟨e, he, hxe⟩ := h2 x hx
              by_cases hek : e.1 = mismatchReasonCode
              · refine ⟨(mismatchReasonCode,
                  { count := ((statsGet agg.reasonStats mismatchReasonCode).getD
                      { count := 0, itemIds := [] }).count + 1
                    itemIds := ssetAdd ((statsGet agg.reasonStats mismatchReasonCode).getD
                      { count := 0, itemIds := [] }).itemIds row.itemId }),
                  (mem_statsSet_iff hk).mpr (Or.inr rfl), ?_⟩
                have hget : statsGet agg.reasonStats mismatchReasonCode = some e.2 := by
                  rw [← hek]
                  exact statsGet_of_mem_nodup hk he
                simp only [hget, Option.getD_some]
                exact mem_ssetAdd.mpr (Or.inl hxe)
              · exact ⟨e, (mem_statsSet_iff hk).mpr (Or.inl ⟨he, hek⟩), hxe⟩
            · refine ⟨(mismatchReasonCode,
                { count := ((statsGet agg.reasonStats mismatchReasonCode).getD
                    { count := 0, itemIds := [] }).count + 1
                  itemIds := ssetAdd ((statsGet agg.reasonStats mismatchReasonCode).getD
                    { count := 0, itemIds := [] }).itemIds row.itemId }),
                (mem_statsSet_iff hk).mpr (Or.inr rfl), ?_⟩
              exact mem_ssetAdd.mpr (Or.inr rfl)
          · intro e he x hx
            rw [mem_statsSet_iff hk] at he
            rcases he with ⟨hmem, _⟩ | rfl
            · exact mem_ssetAdd.mpr (Or.inl (h3 e hmem x hx))
            · simp only at hx
              rw [mem_ssetAdd] at hx
              rcases hx with hx | rfl
              · cases hget : statsGet agg.reasonStats mismatchReasonCode with
                | none =>
                  rw [hget] at hx
                  simp at hx
                | some s =>
                  rw [hget] at hx
                  simp only [Option.getD_some] at hx
                  exact mem_ssetAdd.mpr (Or.inl
                    (h3 (mismatchReasonCode, s) (statsGet_eq_some_mem hget) x hx))
              · exact mem_ssetAdd.mpr (Or.inr rfl)

/-! ### Sample-buffer behavior of a single classification step -/

theorem applyRowWith_samples (env : Env) (m : List (String × List String)) (agg : AggState)
    (row : DocumentItemRow) :
    (applyRowWith env m agg row).samples = agg.samples ∨
    (agg.samples.length < SAMPLE_LIMIT ∧
      ∃ s, (applyRowWith env m agg row).samples = agg.samples ++ [s]) := by
  simp only [applyRowWith]
  split
  · exact Or.inl rfl
  · split
    · exact Or.inl rfl
    · split
      · exact Or.inl rfl
      · split
        · exact Or.inl rfl
        · simp only
          split
          · rename_i hlt
            exact Or.inr ⟨hlt, _, rfl⟩
          · exact Or.inl rfl

/-! ### The cursor filter, unpacked -/

theorem matchesQuery_eq_true_iff (lastKey : Option String) (sd ed : Option Int)
    (r : RawDocumentItem) :
    matchesQuery lastKey sd ed r = true ↔
      (∀ k, lastKey = some k → strLt k r.id = true) ∧
      (∀ s, sd = some s → ∃ t, r.addedOn = some t ∧ s ≤ t) ∧
      (∀ e, ed = some e → ∃ t, r.addedOn = some t ∧ t < e) := by
  rcases r with ⟨rid, ritem, rdoc, radd⟩
  cases lastKey <;> cases sd <;> cases ed <;> cases radd <;>
    simp [matchesQuery, and_assoc]

/-! ### The claims -/

/-- C1: Resume equivalence.  For a fixed primary-collection snapshot
(`DocumentItems`) and fixed reference maps (`repoBodyMap`,
`documentRepoMap`), running the scan uninterrupted to end-of-input yields the
same final per-reason counts (`reasonStats` count), distinct-entity-set sizes
(`reasonStats` itemIds, `allItemIds`) and `documentItemCount` as stopping the
process immediately after any checkpoint save and re-running from that saved
`Checkpoint`.  (Proved for any positive threshold and any save cadence; the
program instantiates `BATCH_SIZE = 5000` and `CHECKPOINT_SAVE_INTERVAL = 5`.
Snapshot hypotheses: `_id` values are nonempty and pairwise distinct, as
MongoDB guarantees.) -/
theorem resume_equivalence (env : Env) (batchSize saveInterval : Nat)
    (hbs : 0 < batchSize) (coll : List RawDocumentItem) (startDate endDate : Option Int)
    (hids : ∀ r ∈ coll, r.id ≠ "")
    (hnodup : (coll.map (fun r => r.id)).Nodup)
    (cp : Checkpoint)
    (hcp : cp ∈ (fullScanRun env batchSize saveInterval coll startDate endDate).saved) :
    (resumeScanRun env batchSize saveInterval coll startDate endDate cp).agg.documentItemCount =
      (fullScanRun env batchSize saveInterval coll startDate endDate).agg.documentItemCount ∧
    (resumeScanRun env batchSize saveInterval coll startDate endDate cp).agg.allItemIds.length =
      (fullScanRun env batchSize saveInterval coll startDate endDate).agg.allItemIds.length ∧
    ∀ reason,
      (statsGet (resumeScanRun env batchSize saveInterval coll startDate
            endDate cp).agg.reasonStats reason).map (fun s => (s.count, s.itemIds.length)) =
        (statsGet (fullScanRun env batchSize saveInterval coll startDate
            endDate).agg.reasonStats reason).map (fun s => (s.count, s.itemIds.length)) := by
  have heq : (resumeScanRun env batchSize saveInterval coll startDate endDate cp).agg =
      (fullScanRun env batchSize saveInterval coll startDate endDate).agg := by
    exact resume_agg_eq
      { env := env, batchSize := batchSize, saveInterval := saveInterval, maxBatches := none }
      hbs rfl coll startDate endDate hids hnodup cp hcp
  rw [heq]
  exact ⟨rfl, rfl, fun reason => rfl⟩

theorem resume_equivalence_witness :
    (resumeScanRun wEnv 1 1 wColl none none wCp).agg.documentItemCount =
      (fullScanRun wEnv 1 1 wColl none none).agg.documentItemCount :=
  (resume_equivalence wEnv 1 1 (by decide) wColl none none (by decide) (by decide) wCp
    (by decide)).1

/-- C2: Classification policy.  For every scanned row: if the row's
`documentId` resolves to no repository id or to a repository with an empty
`bodyOfKnowledgeId`, or if the batch resolution for its `itemId` is absent or
empty, the row is excluded from classification and leaves the aggregates
(counts and samples) unchanged; if the resolved body set exists and does not
contain the repository's `bodyOfKnowledgeId`, the row is counted as a
violation under the single linked-entity-mismatch reason code. -/
theorem classification_policy (env : Env) (itemIds : List String) (agg : AggState)
    (row : DocumentItemRow) :
    (((env.documentRepoMap row.documentId).getD "" = "" ∨
      (env.repoBodyMap ((env.documentRepoMap row.documentId).getD "")).getD "" = "" ∨
      yearMapGet (buildItemYearMap env itemIds) row.itemId = none ∨
      yearMapGet (buildItemYearMap env itemIds) row.itemId = some []) →
      applyRowWith env (buildItemYearMap env itemIds) agg row = agg) ∧
    (∀ bodies, yearMapGet (buildItemYearMap env itemIds) row.itemId = some bodies →
      bodies ≠ [] →
      (env.documentRepoMap row.documentId).getD "" ≠ "" →
      (env.repoBodyMap ((env.documentRepoMap row.documentId).getD "")).getD "" ≠ "" →
      (env.repoBodyMap ((env.documentRepoMap row.documentId).getD "")).getD "" ∉ bodies →
      (applyRowWith env (buildItemYearMap env itemIds) agg row).documentItemCount =
          agg.documentItemCount + 1 ∧
      row.itemId ∈ (applyRowWith env (buildItemYearMap env itemIds) agg row).allItemIds ∧
      ∃ stat, statsGet (applyRowWith env (buildItemYearMap env itemIds) agg row).reasonStats
          mismatchReasonCode = some stat ∧
        stat.count = ((statsGet agg.reasonStats mismatchReasonCode).getD
          { count := 0, itemIds := [] }).count + 1 ∧
        row.itemId ∈ stat.itemIds) := by
  constructor
  · intro h
    simp only [applyRowWith]
    rcases h with h | h | h | h
    · rw [if_pos (Or.inl h)]
    · rw [if_pos (Or.inr h)]
    · by_cases hskip : (env.documentRepoMap row.documentId).getD "" = "" ∨
          (env.repoBodyMap ((env.documentRepoMap row.documentId).getD "")).getD "" = ""
      · rw [if_pos hskip]
      · rw [if_neg hskip, h]
    · by_cases hskip : (env.documentRepoMap row.documentId).getD "" = "" ∨
          (env.repoBodyMap ((env.documentRepoMap row.documentId).getD "")).getD "" = ""
      · rw [if_pos hskip]
      · rw [if_neg hskip, h]
        simp
  · intro bodies hbodies hne hrepo hbody hnotmem
    simp only [applyRowWith]
    rw [if_neg (by push_neg; exact ⟨hrepo, hbody⟩), hbodies]
    simp only [if_neg (show ¬ bodies.length = 0 from by
        simpa [List.length_eq_zero] using hne),
      if_neg hnotmem]
    refine ⟨?_, ?_, ?_⟩
    · trivial
    · exact mem_ssetAdd.mpr (Or.inr rfl)
    · refine ⟨_, statsGet_statsSet_self _ _ _, ?_, ?_⟩
      · trivial
      · exact mem_ssetAdd.mpr (Or.inr rfl)

theorem classification_policy_witness :
    (applyRowWith wEnv2 (buildItemYearMap wEnv2 ["I1"]) emptyAgg wRow2).documentItemCount =
      emptyAgg.documentItemCount + 1 ∧
    applyRowWith wEnv2 (buildItemYearMap wEnv2 ["I1"]) emptyAgg
      { documentItemId := "DI2", itemId := "I2", documentId := "DX" } = emptyAgg :=
  ⟨((classification_policy wEnv2 ["I1"] emptyAgg wRow2).2 ["bodyB"] (by decide) (by decide)
      (by decide) (by decide) (by decide)).1,
    (classification_policy wEnv2 ["I1"] emptyAgg
      { documentItemId := "DI2", itemId := "I2", documentId := "DX" }).1
      (Or.inl (by decide))⟩

/-- C3: Batch flush bound.  Every batch handed to `processBatch` during a run
carries a distinct-key set (`batchItemIds`) that is exactly the distinct-item
set of its rows and has at most `batchSize` keys, and dropping the batch's
last row leaves strictly fewer than `batchSize` distinct keys — so the row
that reaches the threshold is always the last row of its batch, and the final
drain batch may be smaller than the threshold but never larger.  (Proved for
any positive threshold; the program instantiates `BATCH_SIZE = 5000`.) -/
theorem batch_flush_bound (env : Env) (batchSize saveInterval : Nat)
    (maxBatches : Option Nat) (hbs : 0 < batchSize) (cp0 : Option Checkpoint)
    (rows : List RawDocumentItem) :
    ∀ b ∈ (runScan (mkCfg env batchSize saveInterval maxBatches) rows
        (initState cp0)).batches,
      b.2 = ssetOfList (b.1.map (fun x => x.itemId)) ∧
      b.2.length ≤ batchSize ∧
      (ssetOfList (b.1.dropLast.map (fun x => x.itemId))).length < batchSize := by
  obtain ⟨T, rest, _, _, _, _, _, hbatches⟩ :=
    runScan_char (mkCfg env batchSize saveInterval maxBatches) hbs cp0 rows
  exact hbatches

theorem batch_flush_bound_witness :
    wBatch.2.length ≤ 1 :=
  (batch_flush_bound wEnv 1 1 none (by decide) none wColl wBatch (by decide)).2.1

/-- C6: Sample cap invariant.  Starting any run whose (restored) sample
buffer is within the cap, the buffer never exceeds `SAMPLE_LIMIT` (20): the
final buffer and every checkpointed buffer are within the cap, and insertion
is first-come with no eviction or re-ranking — the starting buffer is a
prefix of the final buffer. -/
theorem sample_cap_invariant (env : Env) (batchSize saveInterval : Nat)
    (maxBatches : Option Nat) (cp0 : Option Checkpoint) (rows : List RawDocumentItem)
    (hinit : (initState cp0).agg.samples.length ≤ SAMPLE_LIMIT) :
    (runScan (mkCfg env batchSize saveInterval maxBatches) rows
        (initState cp0)).agg.samples.length ≤ SAMPLE_LIMIT ∧
    (∃ t, (initState cp0).agg.samples ++ t =
      (runScan (mkCfg env batchSize saveInterval maxBatches) rows
        (initState cp0)).agg.samples) ∧
    ∀ ck ∈ (runScan (mkCfg env batchSize saveInterval maxBatches) rows
        (initState cp0)).saved, ck.samples.length ≤ SAMPLE_LIMIT := by
  have hrel := runScan_rel (mkCfg env batchSize saveInterval maxBatches)
    (fun a b => (∃ t, a.samples ++ t = b.samples) ∧
      b.samples.length ≤ max a.samples.length SAMPLE_LIMIT)
    (fun a => ⟨⟨[], by simp⟩, le_max_left _ _⟩)
    (fun a b c hab hbc => by
      obtain ⟨⟨t1, h1⟩, hl1⟩ := hab
      obtain ⟨⟨t2, h2⟩, hl2⟩ := hbc
      refine ⟨⟨t1 ++ t2, by rw [← h2, ← h1]; simp⟩, ?_⟩
      exact le_trans hl2 (max_le (le_trans hl1 (le_refl _)) (le_max_right _ _)))
    (fun m agg row => by
      rcases applyRowWith_samples (mkCfg env batchSize saveInterval maxBatches).env m agg row
        with heq | ⟨hlt, s, heq⟩
      · exact ⟨⟨[], by rw [heq]; simp⟩, by rw [heq]; exact le_max_left _ _⟩
      · refine ⟨⟨[s], heq.symm⟩, ?_⟩
        rw [heq, List.length_append]
        simp only [List.length_singleton]
        exact le_trans hlt (le_max_right _ _))
    rows (initState cp0)
  obtain ⟨⟨⟨t, ht⟩, hlen⟩, hsaved⟩ := hrel
  have hmax : max (initState cp0).agg.samples.length SAMPLE_LIMIT = SAMPLE_LIMIT :=
    Nat.max_eq_right hinit
  refine ⟨by rw [← hmax]; exact hlen, ⟨t, ht⟩, ?_⟩
  intro ck hck
  rcases hsaved ck hck with hmem | ⟨_, hl⟩
  · simp [initState] at hmem
  · show (ckptAgg ck).samples.length ≤ SAMPLE_LIMIT
    rw [← hmax]
    exact hl

theorem sample_cap_invariant_witness :
    (runScan (mkCfg wEnv2 1 1 none) wColl (initState none)).agg.samples.length ≤
      SAMPLE_LIMIT :=
  (sample_cap_invariant wEnv2 1 1 none none wColl (by decide)).1

/-- C7: Resumable cursor scan.  A row is delivered by `documentItemQueryRows`
iff it is in the snapshot, its key is strictly greater than the checkpointed
key when one is given, and its `addedOn` timestamp satisfies the inclusive
lower (`$gte`) and exclusive upper (`$lt`) bound when those are given; and
the delivered sequence is ordered ascending by primary key. -/
theorem resumable_cursor_scan (coll : List RawDocumentItem) (lastKey : Option String)
    (startDate endDate : Option Int) :
    (∀ r, r ∈ documentItemQueryRows coll lastKey startDate endDate ↔
      r ∈ coll ∧
      (∀ k, lastKey = some k → strLt k r.id = true) ∧
      (∀ s, startDate = some s → ∃ t, r.addedOn = some t ∧ s ≤ t) ∧
      (∀ e, endDate = some e → ∃ t, r.addedOn = some t ∧ t < e)) ∧
    List.Pairwise (fun a b => strLe a.id b.id = true)
      (documentItemQueryRows coll lastKey startDate endDate) := by
  refine ⟨?_, sorted_documentItemQueryRows coll lastKey startDate endDate⟩
  intro r
  rw [mem_documentItemQueryRows, matchesQuery_eq_true_iff]

/-- C8: Cooperative cancellation.  With `--max-batches n`, the scan loop can
stop only right after a flush: whenever unread rows remain, the stopped
state's batch buffers are empty (the in-flight batch was fully classified and
aggregated) and at least `n` batches were processed; and every run —
cancelled or run to end-of-input — ends by saving a final checkpoint of its
final cursor and aggregates. -/
theorem cooperative_cancellation (env : Env) (batchSize saveInterval n : Nat)
    (rows : List RawDocumentItem) (cp0 : Option Checkpoint) :
    ((scanRows (mkCfg env batchSize saveInterval (some n)) rows (initState cp0)).2 ≠ [] →
      ((scanRows (mkCfg env batchSize saveInterval (some n)) rows
          (initState cp0)).1).batchRows = [] ∧
      ((scanRows (mkCfg env batchSize saveInterval (some n)) rows
          (initState cp0)).1).batchItemIds = [] ∧
      n ≤ ((scanRows (mkCfg env batchSize saveInterval (some n)) rows
          (initState cp0)).1).batchIndex) ∧
    (runScan (mkCfg env batchSize saveInterval (some n)) rows (initState cp0)).saved.getLast? =
      some (mkCkpt
        (runScan (mkCfg env batchSize saveInterval (some n)) rows
          (initState cp0)).lastProcessedId
        (runScan (mkCfg env batchSize saveInterval (some n)) rows (initState cp0)).agg) := by
  constructor
  · intro hne
    obtain ⟨h1, h2, n2, hn2, hle⟩ :=
      scanRows_stop (mkCfg env batchSize saveInterval (some n)) rows (initState cp0) hne
    have hn : n = n2 := by
      injection hn2
    exact ⟨h1, h2, hn ▸ hle⟩
  · exact runScan_final_save (mkCfg env batchSize saveInterval (some n)) rows (initState cp0)

theorem cooperative_cancellation_witness :
    ((scanRows (mkCfg wEnv 1 1 (some 1)) wColl (initState none)).1).batchRows = [] ∧
    ((scanRows (mkCfg wEnv 1 1 (some 1)) wColl (initState none)).1).batchItemIds = [] ∧
    1 ≤ ((scanRows (mkCfg wEnv 1 1 (some 1)) wColl (initState none)).1).batchIndex :=
  (cooperative_cancellation wEnv 1 1 1 wColl none).1 (by decide)

/-- C10: Aggregate consistency (implicit).  Every classification step
preserves the invariant that `documentItemCount` equals the sum of per-reason
counts and `allItemIds` is the union of the per-reason id sets (a violation
bumps the global counter, the per-reason counter and both id sets together);
the invariant holds at the end of any run started from the empty state and in
every checkpoint such a run writes; and checkpoint serialization followed by
restore is the identity on well-formed aggregates, so it preserves the
invariant. -/
theorem aggregate_consistency :
    (∀ (env : Env) (m : List (String × List String)) (agg : AggState)
        (row : DocumentItemRow),
      AggInv agg ∧ AggNodup agg →
      AggInv (applyRowWith env m agg row) ∧ AggNodup (applyRowWith env m agg row)) ∧
    (∀ (env : Env) (batchSize saveInterval : Nat) (maxBatches : Option Nat)
        (rows : List RawDocumentItem),
      AggInv ((runScan (mkCfg env batchSize saveInterval maxBatches) rows
          (initState none)).agg) ∧
      ∀ ck ∈ (runScan (mkCfg env batchSize saveInterval maxBatches) rows
          (initState none)).saved, AggInv (ckptAgg ck)) ∧
    (∀ (lastId : Option String) (agg : AggState), AggNodup agg →
      restoreAgg (mkCkpt lastId agg) = agg) := by
  have hstep : ∀ (env : Env) (m : List (String × List String)) (agg : AggState)
      (row : DocumentItemRow), AggInv agg ∧ AggNodup agg →
      AggInv (applyRowWith env m agg row) ∧ AggNodup (applyRowWith env m agg row) :=
    fun env m agg row h =>
      ⟨AggInv_applyRowWith env m agg row h.1 h.2, AggNodup_applyRowWith env m agg row h.2⟩
  refine ⟨hstep, ?_, fun lastId agg h => restoreAgg_mkCkpt h lastId⟩
  intro env batchSize saveInterval maxBatches rows
  have hrel := runScan_rel (mkCfg env batchSize saveInterval maxBatches)
    (fun a b => (AggInv a ∧ AggNodup a) → (AggInv b ∧ AggNodup b))
    (fun a h => h)
    (fun a b c hab hbc h => hbc (hab h))
    (fun m agg row h => hstep env m agg row h)
    rows (initState none)
  obtain ⟨hagg, hsaved⟩ := hrel
  have hinit : AggInv (initState none).agg ∧ AggNodup (initState none).agg :=
    ⟨AggInv_emptyAgg, AggNodup_emptyAgg⟩
  refine ⟨(hagg hinit).1, ?_⟩
  intro ck hck
  rcases hsaved ck hck with hmem | hr
  · simp [initState] at hmem
  · exact (hr hinit).1

theorem aggregate_consistency_witness :
    AggInv (applyRowWith wEnv2 (buildItemYearMap wEnv2 ["I1"]) emptyAgg wRow2) ∧
    restoreAgg (mkCkpt none emptyAgg) = emptyAgg :=
  ⟨(aggregate_consistency.1 wEnv2 (buildItemYearMap wEnv2 ["I1"]) emptyAgg wRow2
      ⟨AggInv_emptyAgg, AggNodup_emptyAgg⟩).1,
    aggregate_consistency.2.2 none emptyAgg AggNodup_emptyAgg⟩

/-- C4 (counterexample): the claim that every `saveCheckpoint` invocation is
a single atomic write with write-then-replace semantics — no partial write
ever observable to a later `loadCheckpoint` — is false of the code:
`saveCheckpoint` is one in-place `fs.writeFileSync` with no temporary file
and no rename, so a write interrupted after its first character leaves the
file holding just `"{"`, which is neither the previous content (here: file
absent) nor the full serialized state. -/
theorem save_not_atomic_cex :
    ¬ ∀ (oldContent : Option String) (cp : Checkpoint),
        ∀ c ∈ saveCheckpointIntermediates cp,
          oldContent = some c ∨ c = serializeCheckpoint cp := by
  intro h
  rcases h none wCp4 "\x7b" (by decide) with hc | hc
  · exact absurd hc (by simp)
  · exact absurd hc (by decide)

/-- C4 (amended): every invocation of `saveCheckpoint` performs a single
in-place `fs.writeFileSync` of the full serialized state: the completed write
replaces the file content with exactly `serializeCheckpoint` (the last
intermediate state), and every intermediate state of an interrupted write is
a prefix of that serialization — but there is no write-then-replace step, so
a proper prefix can be observable to a later `loadCheckpoint`. -/
theorem saveCheckpoint_single_write (oldContent : Option String) (cp : Checkpoint) :
    saveCheckpoint oldContent cp = some (serializeCheckpoint cp) ∧
    serializeCheckpoint cp ∈ saveCheckpointIntermediates cp ∧
    ∀ c ∈ saveCheckpointIntermediates cp, strPref c (serializeCheckpoint cp) := by
  refine ⟨rfl, ?_, ?_⟩
  · simp only [saveCheckpointIntermediates, writeFileSyncIntermediates, List.mem_map]
    refine ⟨(serializeCheckpoint cp).length, by simp, ?_⟩
    show (⟨(serializeCheckpoint cp).data.take (serializeCheckpoint cp).length⟩ : String) = _
    rw [show (serializeCheckpoint cp).length = (serializeCheckpoint cp).data.length from rfl,
      List.take_length]
  · intro c hc
    simp only [saveCheckpointIntermediates, writeFileSyncIntermediates, List.mem_map] at hc
    obtain ⟨k, _, rfl⟩ := hc
    exact ⟨(serializeCheckpoint cp).data.drop k, by simp⟩

/-- C5 (counterexample): the claim that invoking the program with
`--finalize-only` twice against the same unchanged checkpoint file produces
byte-identical report files is false: the report embeds the invocation's
current formatted time (`new Date().toLocaleString('zh-TW')`) in its
查詢時間 line, so two invocations whose formatted times differ produce
different bytes. -/
theorem finalize_only_not_pure_cex :
    (finalizeMain (some "c") (fun _ => wCp4) "2025/1/1 上午8:00:00").2 ≠
      (finalizeMain (some "c") (fun _ => wCp4) "2025/1/1 上午8:00:01").2 := by
  decide

/-- C5 (amended): finalize-only output is a pure function of the checkpoint
contents and the formatted invocation time: for the same checkpoint the
rendered report lines agree everywhere except the 查詢時間 line (line
index 2), which embeds the invocation time — so two invocations are
byte-identical exactly when their formatted times coincide. -/
theorem finalize_only_purity (cp : Checkpoint) (now1 now2 : String) :
    (finalizeLines cp now1).eraseIdx 2 = (finalizeLines cp now2).eraseIdx 2 ∧
    (finalizeLines cp now1).get? 2 = some ("**查詢時間**: " ++ now1) :=
  ⟨rfl, rfl⟩

/-- C9: Finalize-only without a checkpoint.  When the program is invoked with
`--finalize-only` and no checkpoint exists — the file is absent, or present
but blank after trimming — it prints the failure message and terminates
without writing any report file. -/
theorem finalize_only_no_checkpoint (fileContent : Option String)
    (parse : String → Checkpoint) (now : String)
    (h : fileContent = none ∨ ∃ raw, fileContent = some raw ∧ jsTrim raw = "") :
    (finalizeMain fileContent parse now).2 = none ∧
    "找不到續跑檔案，無法輸出暫存結果" ∈ (finalizeMain fileContent parse now).1 := by
  rcases h with rfl | ⟨raw, rfl, hraw⟩
  · exact ⟨rfl, by simp [finalizeMain, loadCheckpoint]⟩
  · constructor
    · simp [finalizeMain, loadCheckpoint, hraw]
    · simp [finalizeMain, loadCheckpoint, hraw]

theorem finalize_only_no_checkpoint_witness :
    (finalizeMain none (fun _ => wCp4) "now").2 = none :=
  (finalize_only_no_checkpoint none (fun _ => wCp4) "now" (Or.inl rfl)).1
